import Mathlib

/-!
Verification development for the citation consistency engine of
sphinxcontrib-bibtex (file sphinxcontrib/bibtex/domain.py).

The Python source is shallowly embedded below.  Pure helpers of the Python
standard library that the source relies on (str.lower, str.split, str.strip,
string comparison) are re-implemented over character lists so that every
definition is executable by kernel reduction.  External collaborators
(pybtex plugin registry, re.search, docutils make_id, the document
linearization of the build environment) are parameters gathered in
ExternalEnv: the code under verification only calls them through their
interface, exactly as domain.py does.
-/

namespace BibtexDomain

/-! String helpers mirroring the Python primitives used by domain.py. -/

/-- ASCII lowering of one character (Python str.lower restricted to the
ASCII range, which is the range exercised by bibtex keys and types). -/
def charLower (c : Char) : Char :=
  if 'A' ≤ c && c ≤ 'Z' then Char.ofNat (c.toNat + 32) else c

/-- Python str.lower. -/
def pyLower (s : String) : String := String.mk (s.data.map charLower)

def splitAux (sep : Char) : List Char → List Char → List (List Char)
  | [], acc => [acc.reverse]
  | c :: cs, acc =>
    if c == sep then acc.reverse :: splitAux sep cs []
    else splitAux sep cs (c :: acc)

/-- Python str.split(sep) for a one-character separator, as used by
resolve_xref on the comma: "".split(",") gives [""]. -/
def pySplit (sep : Char) (s : String) : List String :=
  (splitAux sep s.data []).map String.mk

def isSpaceChar (c : Char) : Bool := c == ' ' || c == '\t' || c == '\n' || c == '\r'

def stripLeading : List Char → List Char
  | [] => []
  | c :: rest => if isSpaceChar c then stripLeading rest else c :: rest

/-- Python str.strip(): whitespace removed from both ends. -/
def pyStrip (s : String) : String :=
  String.mk ((stripLeading (stripLeading s.data).reverse).reverse)

def strLtL : List Char → List Char → Bool
  | [], [] => false
  | [], _ :: _ => true
  | _ :: _, [] => false
  | a :: as, b :: bs => a < b || (a == b && strLtL as bs)

/-- Python string comparison, lexicographic on code points. -/
def pyStrLt (a b : String) : Bool := strLtL a.data b.data

def pyStrLe (a b : String) : Bool := !pyStrLt b a

/-- Is the character list n a contiguous segment at the front of h. -/
def listLeads : List Char → List Char → Bool
  | [], _ => true
  | _ :: _, [] => false
  | a :: as, b :: bs => a == b && listLeads as bs

/-- Is the character list n a contiguous segment anywhere inside h. -/
def listInside (n : List Char) (h : List Char) : Bool :=
  listLeads n h ||
    match h with
    | [] => false
    | _ :: hs => listInside n hs

/-- Python substring membership: n in h for strings. -/
def strIn (n h : String) : Bool := listInside n.data h.data

/-- sorted(...) on strings (Python sorted is a stable sort; on strings the
key is the string itself).  Insertion sort, stable. -/
def insStr (x : String) : List String → List String
  | [] => [x]
  | y :: ys => if pyStrLe y x then y :: insStr x ys else x :: y :: ys

def sortStrs (l : List String) : List String :=
  l.foldl (fun acc x => insStr x acc) []

/-- First-occurrence lookup in an association list: Python dict access d[k]
(resp. d.get(k)) on a dict with unique keys. -/
def lookupA {α : Type} : List (String × α) → String → Option α
  | [], _ => none
  | p :: ps, k => if p.1 == k then some p.2 else lookupA ps k

/-- Removal of a key from an association list: Python dict.pop(k) on a dict
with unique keys. -/
def removeA {α : Type} (l : List (String × α)) (k : String) : List (String × α) :=
  l.filter (fun p => !(p.1 == k))

/-- One insertion step of Python dict construction: an existing key keeps
its position and gets the new value, a new key is appended. -/
def pyDictIns {α : Type} (acc : List (String × α)) (kv : String × α) : List (String × α) :=
  if acc.any (fun p => p.1 == kv.1) then
    acc.map (fun p => if p.1 == kv.1 then (p.1, kv.2) else p)
  else acc ++ [kv]

/-- Python dict(pairs): insertion order of first occurrences, value of the
last occurrence, unique keys. -/
def pyDict {α : Type} (l : List (String × α)) : List (String × α) :=
  l.foldl pyDictIns []

/-- Keep the first occurrence of every element, in order. -/
def dedupFirst : List String → List String
  | [] => []
  | k :: ks => k :: (dedupFirst ks).filter (fun x => !(x == k))

/-! The value universe of the filter expression language.  These are the
Python runtime values that _FilterVisitor can produce: strings, ints,
booleans, frozensets, None, and regular-expression match objects (re.search
returns a fresh match object on success and None on failure).  Frozenset
contents are a value list given by the mutual type VList, so that all
recursions below are structural and reduce inside the kernel. -/

mutual
inductive Value where
  | vstr (s : String)
  | vint (n : Int)
  | vbool (b : Bool)
  | vset (elems : VList)
  | vnone
  | vmatch
inductive VList where
  | vnil
  | vcons (head : Value) (tail : VList)
end

mutual
def vsize : Value → Nat
  | .vset l => 1 + vlsize l
  | _ => 1
def vlsize : VList → Nat
  | .vnil => 1
  | .vcons v vs => 1 + vsize v + vlsize vs
end

def vlAny (p : Value → Bool) : VList → Bool
  | .vnil => false
  | .vcons v vs => p v || vlAny p vs

def vlIsEmpty : VList → Bool
  | .vnil => true
  | .vcons _ _ => false

def vlApp : VList → VList → VList
  | .vnil, ws => ws
  | .vcons v vs, ws => .vcons v (vlApp vs ws)

def vlFilter (p : Value → Bool) : VList → VList
  | .vnil => .vnil
  | .vcons v vs => if p v then .vcons v (vlFilter p vs) else vlFilter p vs

def vlOfStrs : List String → VList
  | [] => .vnil
  | s :: ss => .vcons (.vstr s) (vlOfStrs ss)

/-- Python truthiness of the values above. -/
def truthy : Value → Bool
  | .vstr s => !(s == "")
  | .vint n => !(n == 0)
  | .vbool b => b
  | .vset l => !vlIsEmpty l
  | .vnone => false
  | .vmatch => true

/-- Python exception taxonomy used by domain.py: ValueError raised by
_FilterVisitor and caught by get_filtered_bibliography_entries, TypeError
raised by the Python runtime on mixed-type comparisons (never caught),
IndexError for malformed syntax trees, PluginNotFound raised by
pybtex.plugin.find_plugin, ExtensionError raised at setup. -/
inductive PyErr where
  | valueError (msg : String)
  | typeError (msg : String)
  | indexError (msg : String)
  | pluginNotFound (name : String)
  | extensionError (msg : String)
  deriving DecidableEq, Repr

/-- Subset test between frozenset contents, element membership decided by
the given equality; helper for frozenset comparison. -/
def subAll (eqf : Value → Value → Bool) : VList → VList → Bool
  | .vnil, _ => true
  | .vcons v vs, ws => vlAny (eqf v) ws && subAll eqf vs ws

/-- Python == on the value universe, with a structural fuel (the fuel passed
by pyEq always exceeds the nesting depth, so the 0 case is unreachable).
True == 1 and False == 0 hold as in Python; frozensets compare as sets;
None == None; a match object is a fresh object and compares unequal to
everything (each visit creates a new one, so reflexive comparison of one
object never happens). -/
def pyEqFuel : Nat → Value → Value → Bool
  | 0, _, _ => false
  | n + 1, a, b =>
    match a, b with
    | .vstr x, .vstr y => x == y
    | .vint x, .vint y => x == y
    | .vbool x, .vbool y => x == y
    | .vint x, .vbool y => x == (if y then 1 else 0)
    | .vbool x, .vint y => (if x then (1 : Int) else 0) == y
    | .vset xs, .vset ys => subAll (pyEqFuel n) xs ys && subAll (pyEqFuel n) ys xs
    | .vnone, .vnone => true
    | _, _ => false

def pyEq (a b : Value) : Bool := pyEqFuel (vsize a + vsize b) a b

/-- Python < on the value universe: numeric on int/bool, lexicographic on
strings, proper subset on frozensets, TypeError on any other combination
(this is the runtime behaviour of CPython 3 that visit_Compare relies on). -/
def pyRichLt (l r : Value) : Except PyErr Bool :=
  match l, r with
  | .vint x, .vint y => .ok (decide (x < y))
  | .vint x, .vbool y => .ok (decide (x < (if y then 1 else 0)))
  | .vbool x, .vint y => .ok (decide ((if x then (1 : Int) else 0) < y))
  | .vbool x, .vbool y => .ok (decide ((if x then (1 : Int) else 0) < (if y then 1 else 0)))
  | .vstr x, .vstr y => .ok (pyStrLt x y)
  | .vset xs, .vset ys => .ok (subAll pyEq xs ys && !subAll pyEq ys xs)
  | _, _ => .error (.typeError "unorderable operand types in lt comparison")

/-- Python <= analogously (subset on frozensets). -/
def pyRichLe (l r : Value) : Except PyErr Bool :=
  match l, r with
  | .vint x, .vint y => .ok (decide (x ≤ y))
  | .vint x, .vbool y => .ok (decide (x ≤ (if y then 1 else 0)))
  | .vbool x, .vint y => .ok (decide ((if x then (1 : Int) else 0) ≤ y))
  | .vbool x, .vbool y => .ok (decide ((if x then (1 : Int) else 0) ≤ (if y then 1 else 0)))
  | .vstr x, .vstr y => .ok (pyStrLe x y)
  | .vset xs, .vset ys => .ok (subAll pyEq xs ys)
  | _, _ => .error (.typeError "unorderable operand types in le comparison")

/-- Python membership x in y: frozenset membership by ==, substring test
when y is a string (TypeError when x is not a string), TypeError when y is
not iterable. -/
def pyIn (l r : Value) : Except PyErr Bool :=
  match r with
  | .vset ws => .ok (vlAny (pyEq l) ws)
  | .vstr s =>
    match l with
    | .vstr t => .ok (strIn t s)
    | _ => .error (.typeError "in string requires string as left operand")
  | _ => .error (.typeError "argument is not iterable")

/-! The abstract syntax of parsed filter expressions (the fragment of the
Python ast module that _FilterVisitor dispatches on).  A Bibliography
stores the body of a parsed ast.Module; each statement is an ast.Expr
wrapper around an expression (exprStmt below).  otherNode stands for every
ast node kind without a dedicated visit_ method, which generic_visit turns
into a ValueError.  The operator enumerations carry an other... variant for
the operator kinds _raise_invalid_node rejects. -/

inductive BoolOpK where
  | andOp
  | orOp
  deriving DecidableEq, Repr

inductive UnOpK where
  | notOp
  | otherUnOp
  deriving DecidableEq, Repr

inductive BinOpK where
  | modOp
  | bitOrOp
  | bitAndOp
  | otherBinOp
  deriving DecidableEq, Repr

inductive CmpOpK where
  | eqOp
  | notEqOp
  | ltOp
  | ltEOp
  | gtOp
  | gtEOp
  | inOp
  | notInOp
  | isOp
  deriving DecidableEq, Repr

mutual
inductive FExpr where
  | exprStmt (value : FExpr)
  | boolOp (op : BoolOpK) (values : FList)
  | unaryOp (op : UnOpK) (operand : FExpr)
  | binOp (left : FExpr) (op : BinOpK) (right : FExpr)
  | compare (left : FExpr) (ops : List CmpOpK) (comparators : FList)
  | nameE (id : String)
  | setE (elts : FList)
  | constantE (v : Value)
  | otherNode (desc : String)
inductive FList where
  | fnil
  | fcons (head : FExpr) (tail : FList)
end

def flOf : List FExpr → FList
  | [] => .fnil
  | e :: es => .fcons e (flOf es)

/-- A parsed bibliography entry (pybtex.database.Entry, consumed opaquely):
type tag, key, field mapping, person-role mapping. -/
structure Entry where
  type_ : String
  key : String
  fields : List (String × String)
  persons : List (String × List String)
  deriving DecidableEq, Repr

/-- The state of one _FilterVisitor: the entry under test, the docname of
the listing, the set of documents citing the entry, and the re.search
collaborator (pattern then haystack, compiled with re.IGNORECASE). -/
structure FilterCtx where
  entry : Entry
  docname : String
  citedDocnames : List String
  research : String → String → Bool

/-- visit_Name: the value of an identifier. -/
def visitName (ctx : FilterCtx) (id_ : String) : Value :=
  if id_ == "type" then .vstr (pyLower ctx.entry.type_)
  else if id_ == "key" then .vstr (pyLower ctx.entry.key)
  else if id_ == "cited" then .vbool (!ctx.citedDocnames.isEmpty)
  else if id_ == "docname" then .vstr ctx.docname
  else if id_ == "docnames" then .vset (vlOfStrs ctx.citedDocnames)
  else if id_ == "author" || id_ == "editor" then
    match lookupA ctx.entry.persons id_ with
    | some ps => .vstr (String.intercalate " and " ps)
    | none => .vstr ""
  else .vstr ((lookupA ctx.entry.fields id_).getD "")

/-- visit_BinOp after both operands are evaluated.  The Mod branch checks
the left operand first, then the right, each failure a ValueError; on two
strings it returns the re.search result (a match object or None).  BitOr
and BitAnd are the Python runtime | and &: boolean on two bools, bitwise on
ints, union and intersection on frozensets, TypeError otherwise.  Any other
operator kind goes to _raise_invalid_node, a ValueError. -/
def pyBinArith (research : String → String → Bool) (op : BinOpK) (l r : Value) :
    Except PyErr Value :=
  match op with
  | .modOp =>
    match l with
    | .vstr hay =>
      match r with
      | .vstr pat => .ok (if research pat hay then .vmatch else .vnone)
      | _ => .error (.valueError "expected a string on right side of Mod")
    | _ => .error (.valueError "expected a string on left side of Mod")
  | .bitOrOp =>
    match l, r with
    | .vbool x, .vbool y => .ok (.vbool (x || y))
    | .vint x, .vint y => .ok (.vint (Int.lor x y))
    | .vint x, .vbool y => .ok (.vint (Int.lor x (if y then 1 else 0)))
    | .vbool x, .vint y => .ok (.vint (Int.lor (if x then 1 else 0) y))
    | .vset xs, .vset ys => .ok (.vset (vlApp xs (vlFilter (fun y => !vlAny (pyEq y) xs) ys)))
    | _, _ => .error (.typeError "unsupported operand types for BitOr")
  | .bitAndOp =>
    match l, r with
    | .vbool x, .vbool y => .ok (.vbool (x && y))
    | .vint x, .vint y => .ok (.vint (Int.land x y))
    | .vint x, .vbool y => .ok (.vint (Int.land x (if y then 1 else 0)))
    | .vbool x, .vint y => .ok (.vint (Int.land (if x then 1 else 0) y))
    | .vset xs, .vset ys => .ok (.vset (vlFilter (fun x => vlAny (pyEq x) ys) xs))
    | _, _ => .error (.typeError "unsupported operand types for BitAnd")
  | .otherBinOp => .error (.valueError "invalid node BinOp in filter expression")

/-- visit_Compare after the length check, for the single comparator. -/
def pyCompareOp (op : CmpOpK) (l r : Value) : Except PyErr Value :=
  match op with
  | .eqOp => .ok (.vbool (pyEq l r))
  | .notEqOp => .ok (.vbool (!pyEq l r))
  | .ltOp => (pyRichLt l r).map Value.vbool
  | .ltEOp => (pyRichLe l r).map Value.vbool
  | .gtOp => (pyRichLt r l).map Value.vbool
  | .gtEOp => (pyRichLe r l).map Value.vbool
  | .inOp => (pyIn l r).map Value.vbool
  | .notInOp => (pyIn l r).map (fun b => Value.vbool (!b))
  | .isOp => .error (.valueError "invalid node Is in filter expression")

mutual
/-- The dispatching visit of _FilterVisitor.  visit_BoolOp builds a
generator of operand outcomes and hands it to all or any, which consume it
lazily: genAll and genAny below are exactly that consumption.  visit_BinOp
evaluates both operands before dispatching on the operator.  visit_Compare
first rejects chained comparisons, then evaluates the left operand and the
single comparator.  visit_Set evaluates every element (frozenset consumes
the whole generator).  generic_visit raises ValueError. -/
def visit (ctx : FilterCtx) : FExpr → Except PyErr Value
  | .exprStmt value => visit ctx value
  | .boolOp op values =>
    match op with
    | .andOp => (genAll ctx values).map Value.vbool
    | .orOp => (genAny ctx values).map Value.vbool
  | .unaryOp op operand =>
    match op with
    | .notOp => (visit ctx operand).map (fun v => Value.vbool (!truthy v))
    | .otherUnOp => .error (.valueError "invalid node UnaryOp in filter expression")
  | .binOp left op right => do
    let l ← visit ctx left
    let r ← visit ctx right
    pyBinArith ctx.research op l r
  | .compare left ops comparators =>
    if ops.length == 1 then
      match ops.head?, comparators with
      | some op, .fcons c _ => do
        let l ← visit ctx left
        let r ← visit ctx c
        pyCompareOp op l r
      | _, _ => .error (.indexError "malformed Compare node")
    else .error (.valueError "syntax for multiple comparators not supported")
  | .nameE id_ => .ok (visitName ctx id_)
  | .setE elts => (visitSet ctx elts).map Value.vset
  | .constantE v => .ok v
  | .otherNode desc => .error (.valueError ("invalid node " ++ desc ++ " in filter expression"))

/-- all(generator of visits): consume until the first falsy outcome. -/
def genAll (ctx : FilterCtx) : FList → Except PyErr Bool
  | .fnil => .ok true
  | .fcons e rest =>
    match visit ctx e with
    | .error err => .error err
    | .ok v => if truthy v then genAll ctx rest else .ok false

/-- any(generator of visits): consume until the first truthy outcome. -/
def genAny (ctx : FilterCtx) : FList → Except PyErr Bool
  | .fnil => .ok false
  | .fcons e rest =>
    match visit ctx e with
    | .error err => .error err
    | .ok v => if truthy v then .ok true else genAny ctx rest

/-- frozenset(generator of visits): every element evaluated, in order. -/
def visitSet (ctx : FilterCtx) : FList → Except PyErr VList
  | .fnil => .ok .vnil
  | .fcons e rest => do
    let v ← visit ctx e
    let vs ← visitSet ctx rest
    .ok (.vcons v vs)
end

/-- visit_Module: one statement exactly, otherwise a ValueError. -/
def visitModule (ctx : FilterCtx) (body : FList) : Except PyErr Value :=
  match body with
  | .fcons stmt .fnil => visit ctx stmt
  | _ => .error (.valueError "filter expression cannot contain multiple expressions")

/-! The data model of the citation registry (the NamedTuples of domain.py
and the BibtexDomain data).  labelP and keyP stand for the source fields
labelprefix and keyprefix. -/

/-- Information about a bibliography directive. -/
structure Bibliography where
  docname : String
  line : Nat
  bibfiles : List String
  style : String
  list_ : String
  enumtype : String
  start : Int
  labelP : String
  keyP : String
  filter_ : FList

/-- Information about a citation (citation_id is None for a duplicate or a
non-citation list kind). -/
structure Citation where
  citation_id : Option String
  bibliography_id : String
  key : String
  label : String
  entry_key : String
  entry_label : String
  deriving DecidableEq, Repr

/-- Information about a citation reference. -/
structure CitationRef where
  citation_ref_id : String
  docname : String
  line : Nat
  keys : List String
  deriving DecidableEq, Repr

/-- One logged diagnostic.  The duplicate citation and filter warnings
carry the location (docname, line) passed to logger.warning; the label
collision warning carries the sorted key list interpolated into its
message. -/
inductive Warning where
  | duplicateCitation (key : String) (docname : String) (line : Nat)
  | duplicateLabel (label : String) (keys : List String)
  | filterWarning (msg : String) (docname : String) (line : Nat)
  | keyNotFound (key : String)
  deriving DecidableEq, Repr

/-- The mutable data of the BibtexDomain: parsed bib files by file name,
bibliography directives by id (a dict, insertion ordered, unique ids),
materialized citations, and citation references. -/
structure DomainState where
  bibfiles : List (String × List Entry)
  bibliographies : List (String × Bibliography)
  citations : List Citation
  citationRefs : List CitationRef

/-- The pybtex style collaborator: sort plus format_labels. -/
structure Style where
  sortE : List Entry → List Entry
  formatLabels : List Entry → List String

/-- The external collaborators of the resolver: the document linearization
produced by get_docnames (root-first reading order of the corpus), the
pybtex plugin registry consulted by find_plugin, re.search, and
docutils.nodes.make_id. -/
structure ExternalEnv where
  docnames : List String
  plugins : List (String × Style)
  research : String → String → Bool
  makeId : String → String

/-- pybtex.plugin.find_plugin: unknown names raise PluginNotFound. -/
def find_plugin (plugins : List (String × Style)) (name : String) : Except PyErr Style :=
  match lookupA plugins name with
  | some st => .ok st
  | none => .error (.pluginNotFound name)

/-- get_bibliography_entries: all entries of the bib files of the
directive, in file then in-file order, each with its prefixed key.  (The
bibfiles dict access cannot fail for states built by the extension, since
every directive file name was processed at setup; getD stands for that
invariant.) -/
def get_bibliography_entries (s : DomainState) (bibliography : Bibliography) :
    List (String × Entry) :=
  List.flatten (bibliography.bibfiles.map (fun bibfile =>
    ((lookupA s.bibfiles bibfile).getD []).map
      (fun entry => (bibliography.keyP ++ entry.key, entry))))

/-- The set comprehension of get_filtered_bibliography_entries: the
docnames of the citation references mentioning the key (a Python set; kept
as a first-occurrence ordered list of its elements). -/
def cited_docnames_of (refs : List CitationRef) (key : String) : List String :=
  dedupFirst ((refs.filter (fun r => r.keys.contains key)).map (fun r => r.docname))

/-- The visitor run of get_filtered_bibliography_entries on one entry. -/
def entryFilterResult (ext : ExternalEnv) (s : DomainState) (bibliography : Bibliography)
    (entry : Entry) : Except PyErr Value :=
  visitModule
    ⟨entry, bibliography.docname,
      cited_docnames_of s.citationRefs (bibliography.keyP ++ entry.key), ext.research⟩
    bibliography.filter_

/-- The loop of get_filtered_bibliography_entries: for each entry run the
filter; a ValueError is caught (warning, then fall back to selecting iff
cited); any other exception escapes the generator and aborts it; on a
normal outcome the entry is selected iff the outcome is truthy. -/
def goFiltered (ext : ExternalEnv) (s : DomainState) (bibliography : Bibliography) :
    List (String × Entry) → Except PyErr (List (String × Entry) × List Warning)
  | [] => .ok ([], [])
  | (_, entry) :: rest =>
    let key := bibliography.keyP ++ entry.key
    let cited := cited_docnames_of s.citationRefs key
    match entryFilterResult ext s bibliography entry with
    | .ok v => do
      let r ← goFiltered ext s bibliography rest
      .ok (if truthy v then ((key, entry) :: r.1, r.2) else r)
    | .error (.valueError msg) => do
      let r ← goFiltered ext s bibliography rest
      .ok
        (if !cited.isEmpty then (key, entry) :: r.1 else r.1,
          Warning.filterWarning msg bibliography.docname bibliography.line :: r.2)
    | .error e => .error e

/-- get_filtered_bibliography_entries: unsorted entries selected by the
filter expression, together with the warnings it logs. -/
def get_filtered_bibliography_entries (ext : ExternalEnv) (s : DomainState)
    (bibliography : Bibliography) : Except PyErr (List (String × Entry) × List Warning) :=
  goFiltered ext s bibliography (get_bibliography_entries s bibliography)

/-- Stable insertion by a Nat key: the new element goes after every element
with a smaller or equal key. -/
def insertByKey (keyf : CitationRef → Nat) (x : CitationRef) :
    List CitationRef → List CitationRef
  | [] => [x]
  | y :: ys => if keyf y ≤ keyf x then y :: insertByKey keyf x ys else x :: y :: ys

/-- Python sorted(list, key=...): a stable sort (insertion sort here). -/
def pySorted (keyf : CitationRef → Nat) (l : List CitationRef) : List CitationRef :=
  l.foldl (fun acc x => insertByKey keyf x acc) []

/-- get_all_cited_keys: every key of every citation reference, references
ordered by the position of their document in the corpus linearization
(docnames.index raises for a reference of an unprocessed document, which
the extension never registers; indexOf then agrees with index). -/
def get_all_cited_keys (docnames : List String) (refs : List CitationRef) : List String :=
  List.flatten ((pySorted (fun c => docnames.indexOf c.docname) refs).map (fun c => c.keys))

/-- The pop loop of get_sorted_bibliography_entries: for each cited key in
order, pop it from the dict if present and yield it; returns the yielded
pairs and the remaining dict. -/
def popLoop {α : Type} : List String → List (String × α) →
    List (String × α) × List (String × α)
  | [], es => ([], es)
  | k :: ks, es =>
    match lookupA es k with
    | some e =>
      let r := popLoop ks (removeA es k)
      ((k, e) :: r.1, r.2)
    | none => popLoop ks es

/-- get_sorted_bibliography_entries: filtered entries sorted by citation
order, then the remaining ones in bibliography file order. -/
def get_sorted_bibliography_entries (ext : ExternalEnv) (s : DomainState)
    (bibliography : Bibliography) : Except PyErr (List (String × Entry) × List Warning) := do
  let fr ← get_filtered_bibliography_entries ext s bibliography
  let entries := pyDict fr.1
  let r := popLoop (get_all_cited_keys ext.docnames s.citationRefs) entries
  .ok (r.1 ++ r.2, fr.2)

/-- get_labelled_bibliography_entries: sorted entries re-sorted by the
pybtex style plugin and zipped with the labels it formats. -/
def get_labelled_bibliography_entries (ext : ExternalEnv) (s : DomainState)
    (bibliography : Bibliography) : Except PyErr (List (String × Entry) × List Warning) := do
  let sr ← get_sorted_bibliography_entries ext s bibliography
  let entries := pyDict sr.1
  let style ← find_plugin ext.plugins bibliography.style
  let sorted_entries := style.sortE (entries.map (fun p => p.2))
  let labels := style.formatLabels sorted_entries
  .ok (labels.zip sorted_entries, sr.2)

/-! check_consistency.  The loop threads four accumulators (used_keys,
used_labels, used_ids, the citation list) plus the warnings it logs; the
Python sets and dicts are kept as lists whose membership tests coincide
with the set ones. -/

structure CCAcc where
  usedKeys : List String
  usedLabels : List (String × List String)
  usedIds : List (Option String)
  cits : List Citation
  warns : List Warning

/-- The while loop looking for the first free numeric suffix for a
colliding candidate id.  The fuel exceeds the number of used ids, so the
search always ends before the fuel does. -/
def findSuffixNum (usedIds : List (Option String)) (base : String) : Nat → Nat → Nat
  | 0, num => num
  | fuelN + 1, num =>
    if usedIds.contains (some (base ++ toString num)) then
      findSuffixNum usedIds base fuelN (num + 1)
    else num

/-- used_labels.setdefault(label, set()).add(key): record the key under the
label, keeping distinct keys only and first-insertion order. -/
def addLabelKey (labels : List (String × List String)) (label key : String) :
    List (String × List String) :=
  if labels.any (fun p => p.1 == label) then
    labels.map (fun p =>
      if p.1 == label then (p.1, if p.2.contains key then p.2 else p.2 ++ [key]) else p)
  else labels ++ [(label, [key])]

/-- One iteration of the inner loop of check_consistency, for one labelled
entry of one bibliography directive: compute the prefixed key and label,
assign the citation id (None for a non-citation list kind; None plus a
duplicate warning for an already used key; otherwise a docutils id made
from the key, disambiguated against used_ids by a numeric suffix), append
the Citation and update the bookkeeping. -/
def ccEntryStep (makeId : String → String) (bibliography_id : String)
    (bibliography : Bibliography) (acc : CCAcc) (le : String × Entry) : CCAcc :=
  let entry_label := le.1
  let entry := le.2
  let key := bibliography.keyP ++ entry.key
  let label := bibliography.labelP ++ entry_label
  let idw : Option String × List Warning :=
    if !(bibliography.list_ == "citation") then (none, [])
    else if acc.usedKeys.contains key then
      (none, [Warning.duplicateCitation key bibliography.docname bibliography.line])
    else
      let base_id := makeId ("bibtex-citation-" ++ key)
      if !(acc.usedIds.contains (some base_id)) then (some base_id, [])
      else
        (some (base_id ++ toString (findSuffixNum acc.usedIds base_id
          (acc.usedIds.length + 1) 1)), [])
  { usedKeys := acc.usedKeys ++ [key]
    usedLabels := addLabelKey acc.usedLabels label key
    usedIds := acc.usedIds ++ [idw.1]
    cits := acc.cits ++
      [⟨idw.1, bibliography_id, key, label, entry.key, entry_label⟩]
    warns := acc.warns ++ idw.2 }

/-- One iteration of the outer loop of check_consistency: fetch the
labelled entries of the directive (logging the filter warnings that the
generator emits while being consumed) and fold the inner loop over them. -/
def ccBib (ext : ExternalEnv) (s : DomainState) (acc : CCAcc)
    (p : String × Bibliography) : Except PyErr CCAcc := do
  let le ← get_labelled_bibliography_entries ext s p.2
  .ok (le.1.foldl (ccEntryStep ext.makeId p.1 p.2) { acc with warns := acc.warns ++ le.2 })

def ccFold (ext : ExternalEnv) (s : DomainState) :
    List (String × Bibliography) → CCAcc → Except PyErr CCAcc
  | [], acc => .ok acc
  | p :: rest, acc => do
    let acc1 ← ccBib ext s acc p
    ccFold ext s rest acc1

/-- The final scan of check_consistency: one consolidated warning per label
mapping to more than one distinct key, the keys sorted. -/
def labelWarnings (usedLabels : List (String × List String)) : List Warning :=
  (usedLabels.filter (fun p => 1 < p.2.length)).map
    (fun p => Warning.duplicateLabel p.1 (sortStrs p.2))

/-- check_consistency: iterate over all bibliography directives in
registration order, materialize the citations (appending to the citation
list of the domain data) and report the duplicate-key and label-collision
warnings.  A PluginNotFound from the style lookup or a TypeError from the
filter evaluation escapes to the caller. -/
def check_consistency (ext : ExternalEnv) (s : DomainState) :
    Except PyErr (DomainState × List Warning) := do
  let acc ← ccFold ext s s.bibliographies ⟨[], [], [], [], []⟩
  .ok ({ s with citations := s.citations ++ acc.cits },
    acc.warns ++ labelWarnings acc.usedLabels)

/-! resolve_xref. -/

/-- The rendered inline element of resolve_xref, flattened into a node
list: the opening bracket text, one node per key (a reference for a
resolved key, a plain inline for a missing one), comma texts, the closing
bracket text.  refN records (fromdoc, todoc, anchor id, visible text) as
passed to make_refnode; citationRefN records the latex citation_reference
(docname, refname, visible text). -/
inductive XNode where
  | textN (s : String)
  | inlineN (s : String)
  | refN (fromdoc : String) (todoc : String) (refid : Option String) (content : String)
  | citationRefN (docname : String) (refname : Option String) (content : String)
  deriving DecidableEq, Repr

def bibliographyOf (s : DomainState) (bid : String) : Option Bibliography :=
  lookupA s.bibliographies bid

/-- Is the listing of the citation of citation list kind.  (The
bibliographies dict access in the source cannot fail, since every
materialized citation points at a registered directive.) -/
def citKind (s : DomainState) (cit : Citation) : Bool :=
  ((bibliographyOf s cit.bibliography_id).map (fun b => b.list_)) == some "citation"

/-- The dict comprehension of resolve_xref: citation key to citation data,
restricted to the requested keys and to citation list kinds; a later
citation with the same key overwrites an earlier one. -/
def resolveCitDict (s : DomainState) (keys : List String) : List (String × Citation) :=
  pyDict ((s.citations.filter (fun cit => keys.contains cit.key && citKind s cit)).map
    (fun cit => (cit.key, cit)))

/-- The reference node of one resolved citation: the latex builder gets a
citation_reference with refname = citation_id, every other builder a
make_refnode reference with refid = citation_id; the visible text is the
label in both cases. -/
def mkCitRefNode (builderName : String) (envDocname : String) (s : DomainState)
    (citation : Citation) : XNode :=
  if builderName == "latex" then
    XNode.citationRefN envDocname citation.citation_id citation.label
  else
    XNode.refN envDocname
      (((bibliographyOf s citation.bibliography_id).map (fun b => b.docname)).getD "")
      citation.citation_id citation.label

/-- The loop body of resolve_xref over the enumerated keys: an unresolved
key contributes its bare text plus a warning and continues (skipping the
comma separator); a resolved key contributes the reference node and, when
it is not in the last position, a comma. -/
def renderKeys (builderName : String) (envDocname : String) (s : DomainState)
    (cdict : List (String × Citation)) (total : Nat) :
    Nat → List String → List XNode × List Warning
  | _, [] => ([], [])
  | i, key :: rest =>
    let r := renderKeys builderName envDocname s cdict total (i + 1) rest
    match lookupA cdict key with
    | none => (XNode.inlineN key :: r.1, Warning.keyNotFound key :: r.2)
    | some citation =>
      ((mkCitRefNode builderName envDocname s citation ::
        (if !(i == total - 1) then [XNode.textN ","] else [])) ++ r.1, r.2)

/-- resolve_xref: split the target on commas, strip each key, and render
the bracketed list of references. -/
def resolve_xref (builderName : String) (envDocname : String) (s : DomainState)
    (target : String) : List XNode × List Warning :=
  let keys := (pySplit ',' target).map pyStrip
  let cdict := resolveCitDict s keys
  let r := renderKeys builderName envDocname s cdict keys.length 0 keys
  (XNode.textN "[" :: r.1 ++ [XNode.textN "]"], r.2)

/-! Setup (BibtexDomain.__init__). -/

/-- The configuration values the constructor inspects.  (The header
parsing and bib file processing of the constructor are collaborations with
docutils and the bibfile cache and carry no citation state.) -/
structure BibtexConfig where
  bibtex_bibfiles : Option (List String)
  deriving DecidableEq, Repr

/-- BibtexDomain.__init__: a missing bibtex_bibfiles setting raises
ExtensionError; nothing else about the configuration (in particular no
style name) is validated here. -/
def bibtexDomainInit (config : BibtexConfig) : Except PyErr Unit :=
  if config.bibtex_bibfiles == none then
    .error (.extensionError "You must configure the bibtex_bibfiles setting")
  else .ok ()

/-! Specification-side functions.  Each of the following definitions
renders in executable form what one spec sentence predicts, so that the
refinement theorems below can compare the translated source against it. -/

/-- Spec, entry selection fallback: the outcome classes the recovery path
distinguishes.  Only a ValueError is caught by the selection loop. -/
def recoverableRes : Except PyErr Value → Bool
  | .ok _ => true
  | .error (.valueError _) => true
  | .error _ => false

/-- Spec, entry selection: an entry is kept when its filter outcome is
truthy, or when the filter fails with an expression error and the entry is
cited anywhere. -/
def specFilterKeeps (ext : ExternalEnv) (s : DomainState) (bibliography : Bibliography)
    (entry : Entry) : Bool :=
  match entryFilterResult ext s bibliography entry with
  | .ok v => truthy v
  | .error _ =>
    !(cited_docnames_of s.citationRefs (bibliography.keyP ++ entry.key)).isEmpty

/-- Spec, entry selection: the selected entries, with prefixed keys. -/
def specFiltered (ext : ExternalEnv) (s : DomainState) (bibliography : Bibliography)
    (entries : List (String × Entry)) : List (String × Entry) :=
  (entries.filter (fun p => specFilterKeeps ext s bibliography p.2)).map
    (fun p => (bibliography.keyP ++ p.2.key, p.2))

/-- Spec, entry selection: one warning at the listing location per entry
whose filter fails with an expression error. -/
def specFilterWarns (ext : ExternalEnv) (s : DomainState) (bibliography : Bibliography)
    (entries : List (String × Entry)) : List Warning :=
  entries.filterMap (fun p =>
    match entryFilterResult ext s bibliography p.2 with
    | .error (.valueError m) =>
      some (Warning.filterWarning m bibliography.docname bibliography.line)
    | _ => none)

/-- Spec, listing order: the corpus citation stream, documents in reading
order, references of one document in registration order, keys of one
reference in order. -/
def specCitedSeq (docnames : List String) (refs : List CitationRef) : List String :=
  List.flatten (docnames.map (fun d =>
    List.flatten ((refs.filter (fun r => r.docname == d)).map (fun r => r.keys))))

/-- Spec, listing order: first every selected key cited anywhere, by first
occurrence in the citation stream, then the remaining selected entries in
bibliography file order. -/
def specReorder (entries : List (String × Entry)) (citedSeq : List String) :
    List (String × Entry) :=
  ((dedupFirst citedSeq).filterMap (fun k => (lookupA entries k).map (fun e => (k, e)))) ++
    entries.filter (fun p => !(citedSeq.contains p.1))

/-- Spec, cross-reference rendering: the nodes contributed by the key at
position i: a reference node plus a comma when further keys follow for a
resolved key, the bare key text for an unresolved one. -/
def specKeyNodes (builderName : String) (envDocname : String) (s : DomainState)
    (cdict : List (String × Citation)) (total : Nat) (i : Nat) (key : String) : List XNode :=
  match lookupA cdict key with
  | none => [XNode.inlineN key]
  | some citation =>
    mkCitRefNode builderName envDocname s citation ::
      (if !(i == total - 1) then [XNode.textN ","] else [])

/-- The anchor of a rendered reference node. -/
def anchorOf : XNode → Option String
  | .refN _ _ refid _ => refid
  | .citationRefN _ refname _ => refname
  | _ => none

/-- Is the warning a label collision warning for the given label. -/
def isLabelWarnFor (lbl : String) : Warning → Bool
  | .duplicateLabel l _ => l == lbl
  | _ => false

/-- The distinct keys stored under one label by check_consistency. -/
def labelKeysOf (usedLabels : List (String × List String)) (lbl : String) : List String :=
  (lookupA usedLabels lbl).getD []

/-! Concrete fixtures used by the counterexamples and witnesses below. -/

/-- Filter ast of the expression True. -/
def filterTrue : FList := flOf [.exprStmt (.constantE (.vbool true))]

def entryQ : Entry := ⟨"misc", "q", [], []⟩

/-- A pybtex style keeping the order and labelling each entry by its key. -/
def plainStyle : Style := ⟨fun es => es, fun es => es.map (fun e => e.key)⟩

/-- A pybtex style keeping the order and labelling every entry "1". -/
def constStyle : Style := ⟨fun es => es, fun es => es.map (fun _ => "1")⟩

def extFix : ExternalEnv :=
  ⟨["doc1"], [("alpha", plainStyle), ("const", constStyle)], fun _ _ => false, fun x => x⟩

def bibEnum : Bibliography :=
  ⟨"doc1", 2, ["f.bib"], "alpha", "enumerated", "arabic", 1, "", "", filterTrue⟩

def bibCit : Bibliography :=
  ⟨"doc1", 5, ["f.bib"], "alpha", "citation", "arabic", 1, "", "", filterTrue⟩

def bibCit3 : Bibliography :=
  ⟨"doc1", 8, ["f.bib"], "alpha", "citation", "arabic", 1, "", "", filterTrue⟩

/-- Registry with an enumerated listing before a citation listing over the
same bib file. -/
def sEnumCit : DomainState :=
  ⟨[("f.bib", [entryQ])], [("b1", bibEnum), ("b2", bibCit)], [], []⟩

/-- Registry with two citation listings over the same bib file. -/
def sTwoCit : DomainState :=
  ⟨[("f.bib", [entryQ])], [("b2", bibCit), ("b3", bibCit3)], [], []⟩

/-- Registry with one citation listing over one bib file. -/
def sOneCit : DomainState :=
  ⟨[("f.bib", [entryQ])], [("b2", bibCit)], [], []⟩

/-- The citation that one run over sOneCit materializes. -/
def cQ : Citation := ⟨some "bibtex-citation-q", "b2", "q", "q", "q", "q"⟩

/-- sOneCit after one run of the consistency pass. -/
def s1OneCit : DomainState :=
  ⟨[("f.bib", [entryQ])], [("b2", bibCit)], [cQ], []⟩

/-- Filter ast of the expression key < 1, a mixed-type comparison. -/
def filterKeyLt1 : FList :=
  flOf [.exprStmt (.compare (.nameE "key") [.ltOp] (flOf [.constantE (.vint 1)]))]

def bibBadCmp : Bibliography :=
  ⟨"doc1", 7, ["f.bib"], "alpha", "citation", "arabic", 1, "", "", filterKeyLt1⟩

def sBadCmp : DomainState := ⟨[("f.bib", [entryQ])], [("bb", bibBadCmp)], [], []⟩

/-- A materialized citation for key Y in the citation listing b2. -/
def cY : Citation := ⟨some "bibtex-citation-Y", "b2", "Y", "[1]", "Y", "1"⟩

/-- Registry with the citation Y materialized and no citation for X. -/
def sX : DomainState := ⟨[("f.bib", [entryQ])], [("b2", bibCit)], [cY], []⟩

/-- A visitor context over a trivial entry with nothing cited. -/
def ctxTriv : FilterCtx := ⟨entryQ, "doc1", [], fun _ _ => false⟩

def eA : Entry := ⟨"misc", "A", [], []⟩
def eB : Entry := ⟨"misc", "B", [], []⟩
def eC : Entry := ⟨"misc", "C", [], []⟩
def eD : Entry := ⟨"misc", "D", [], []⟩

def extD : ExternalEnv :=
  ⟨["D1", "D2"], [("alpha", plainStyle)], fun _ _ => false, fun x => x⟩

def bibAll : Bibliography :=
  ⟨"D2", 9, ["g.bib"], "alpha", "citation", "arabic", 1, "", "", filterTrue⟩

/-- The ordering scenario: document D1 cites B then A, document D2 cites A
then C, the bib file holds A, B, C, D in that order, the filter selects
everything and D stays uncited. -/
def sScen : DomainState :=
  ⟨[("g.bib", [eA, eB, eC, eD])], [("bl", bibAll)], [],
    [⟨"r1", "D1", 1, ["B"]⟩, ⟨"r2", "D1", 2, ["A"]⟩, ⟨"r3", "D2", 1, ["A"]⟩,
      ⟨"r4", "D2", 2, ["C"]⟩]⟩

def entryK1 : Entry := ⟨"misc", "k1", [], []⟩
def entryK2 : Entry := ⟨"misc", "k2", [], []⟩

def bibColl1 : Bibliography :=
  ⟨"doc1", 3, ["f1.bib"], "const", "citation", "arabic", 1, "", "", filterTrue⟩

def bibColl2 : Bibliography :=
  ⟨"doc1", 6, ["f2.bib"], "const", "citation", "arabic", 1, "", "", filterTrue⟩

/-- Registry whose two listings label the distinct keys k1 and k2 with the
same label 1. -/
def sColl : DomainState :=
  ⟨[("f1.bib", [entryK1]), ("f2.bib", [entryK2])],
    [("c1", bibColl1), ("c2", bibColl2)], [], []⟩

def bibNoPlug : Bibliography :=
  ⟨"doc1", 4, [], "nostyle", "citation", "arabic", 1, "", "", filterTrue⟩

/-- Registry with a listing naming a style that is not a known plugin. -/
def sNoPlug : DomainState := ⟨[], [("b9", bibNoPlug)], [], []⟩

/-- Filter ast made of one unsupported node kind. -/
def filterBadNode : FList := flOf [.exprStmt (.otherNode "Lambda")]

def bibBadNode : Bibliography :=
  ⟨"doc1", 11, ["f.bib"], "alpha", "citation", "arabic", 1, "", "", filterBadNode⟩

/-- Registry with a malformed filter on its listing and the entry q cited
in doc1. -/
def sBadNode : DomainState :=
  ⟨[("f.bib", [entryQ])], [("bn", bibBadNode)], [], [⟨"r0", "doc1", 1, ["q"]⟩]⟩

/-- Spec, duplicate handling of one materialized citation batch: for every
decomposition of the batch around one citation c, (i) an earlier citation
with the same full key forces citation_id = none, (ii) a non-citation
list kind forces citation_id = none, (iii) a citation-kind duplicate also
has a duplicate-citation warning located at its own listing, and (iv) a
citation-kind first occurrence of its full key (across all list kinds)
receives an id. -/
def batchKeyProp (s : DomainState) (w : List Warning) (batch : List Citation) : Prop :=
  ∀ l1 c l2, batch = l1 ++ c :: l2 →
    ((∃ a ∈ l1, a.key = c.key) → c.citation_id = none) ∧
    (citKind s c = false → c.citation_id = none) ∧
    (citKind s c = true → (∃ a ∈ l1, a.key = c.key) →
      c.citation_id = none ∧
      ∃ bib, lookupA s.bibliographies c.bibliography_id = some bib ∧
        Warning.duplicateCitation c.key bib.docname bib.line ∈ w) ∧
    (citKind s c = true → (∀ a ∈ l1, a.key ≠ c.key) → c.citation_id.isSome = true)

/-- The loop invariant of check_consistency: used_keys is exactly the key
set of the appended citations, the batch built so far satisfies the
duplicate handling above, used_labels stores per label the distinct keys
of the citations carrying it in first-occurrence order, label entries are
unique, and no label collision warning has been logged yet (those come
after the loop). -/
def ccInv (s : DomainState) (acc : CCAcc) : Prop :=
  (∀ c ∈ acc.cits, acc.usedKeys.contains c.key = true) ∧
  (∀ k, acc.usedKeys.contains k = true → ∃ c ∈ acc.cits, c.key = k) ∧
  batchKeyProp s acc.warns acc.cits ∧
  (∀ lbl, labelKeysOf acc.usedLabels lbl =
    dedupFirst ((acc.cits.filter (fun c => c.label == lbl)).map (fun c => c.key))) ∧
  (acc.usedLabels.map Prod.fst).Nodup ∧
  (∀ lbl ks, Warning.duplicateLabel lbl ks ∉ acc.warns)

/-! Helper lemmas about the generator consumption of visit_BoolOp. -/

theorem genAll_all_truthy (ctx : FilterCtx) (l : List FExpr)
    (h : ∀ p ∈ l, ∃ u, visit ctx p = .ok u ∧ truthy u = true) :
    genAll ctx (flOf l) = .ok true := by
  induction l with
  | nil => rfl
  | cons e rest ih =>
    obtain ⟨u, hu, ht⟩ := h e (List.mem_cons_self e rest)
    simp only [flOf, genAll, hu, ht, if_true]
    exact ih (fun p hp => h p (List.mem_cons_of_mem e hp))

theorem genAll_extend (ctx : FilterCtx) (pre rest : List FExpr)
    (h : ∀ p ∈ pre, ∃ u, visit ctx p = .ok u ∧ truthy u = true) :
    genAll ctx (flOf (pre ++ rest)) = genAll ctx (flOf rest) := by
  induction pre with
  | nil => rfl
  | cons e pre' ih =>
    obtain ⟨u, hu, ht⟩ := h e (List.mem_cons_self e pre')
    simp only [List.cons_append, flOf, genAll, hu, ht, if_true]
    exact ih (fun p hp => h p (List.mem_cons_of_mem e hp))

theorem genAny_all_falsy (ctx : FilterCtx) (l : List FExpr)
    (h : ∀ p ∈ l, ∃ u, visit ctx p = .ok u ∧ truthy u = false) :
    genAny ctx (flOf l) = .ok false := by
  induction l with
  | nil => rfl
  | cons e rest ih =>
    obtain ⟨u, hu, ht⟩ := h e (List.mem_cons_self e rest)
    simp only [flOf, genAny, hu, ht, if_false]
    exact ih (fun p hp => h p (List.mem_cons_of_mem e hp))

theorem genAny_extend (ctx : FilterCtx) (pre rest : List FExpr)
    (h : ∀ p ∈ pre, ∃ u, visit ctx p = .ok u ∧ truthy u = false) :
    genAny ctx (flOf (pre ++ rest)) = genAny ctx (flOf rest) := by
  induction pre with
  | nil => rfl
  | cons e pre' ih =>
    obtain ⟨u, hu, ht⟩ := h e (List.mem_cons_self e pre')
    simp only [List.cons_append, flOf, genAny, hu, ht, if_false]
    exact ih (fun p hp => h p (List.mem_cons_of_mem e hp))

/-- Claim C6, corrected.  The claim states that and/or evaluation is
short-circuit-free, every operand being evaluated even when an earlier one
already determines the outcome, an error in a later operand always
surfacing.  In the source, visit_BoolOp builds a generator of operand
outcomes and hands it to all (resp. any), which stop consuming at the
first falsy (resp. truthy) outcome: evaluation is short-circuiting, left
to right.  This theorem states the amended behaviour: for and, a falsy
operand after only truthy ones fixes the result to False with the
remaining operands unevaluated (their errors do not surface), an error
after only truthy operands surfaces, and all-truthy operands give True;
dually for or with the roles of truthy and falsy exchanged.  The result is
a boolean in all non-error cases. -/
theorem c6_boolop_short_circuit :
    (∀ ctx pre e rest v, (∀ p ∈ pre, ∃ u, visit ctx p = .ok u ∧ truthy u = true) →
      visit ctx e = .ok v → truthy v = false →
      visit ctx (.boolOp .andOp (flOf (pre ++ e :: rest))) = .ok (.vbool false)) ∧
    (∀ ctx pre e rest err, (∀ p ∈ pre, ∃ u, visit ctx p = .ok u ∧ truthy u = true) →
      visit ctx e = .error err →
      visit ctx (.boolOp .andOp (flOf (pre ++ e :: rest))) = .error err) ∧
    (∀ ctx l, (∀ p ∈ l, ∃ u, visit ctx p = .ok u ∧ truthy u = true) →
      visit ctx (.boolOp .andOp (flOf l)) = .ok (.vbool true)) ∧
    (∀ ctx pre e rest v, (∀ p ∈ pre, ∃ u, visit ctx p = .ok u ∧ truthy u = false) →
      visit ctx e = .ok v → truthy v = true →
      visit ctx (.boolOp .orOp (flOf (pre ++ e :: rest))) = .ok (.vbool true)) ∧
    (∀ ctx pre e rest err, (∀ p ∈ pre, ∃ u, visit ctx p = .ok u ∧ truthy u = false) →
      visit ctx e = .error err →
      visit ctx (.boolOp .orOp (flOf (pre ++ e :: rest))) = .error err) ∧
    (∀ ctx l, (∀ p ∈ l, ∃ u, visit ctx p = .ok u ∧ truthy u = false) →
      visit ctx (.boolOp .orOp (flOf l)) = .ok (.vbool false)) := by
  refine ⟨?_, ?_, ?_, ?_, ?_, ?_⟩
  · intro ctx pre e rest v hpre he ht
    simp only [visit, genAll_extend ctx pre (e :: rest) hpre, flOf, genAll, he, ht, if_false]
    rfl
  · intro ctx pre e rest err hpre he
    simp only [visit, genAll_extend ctx pre (e :: rest) hpre, flOf, genAll, he]
    rfl
  · intro ctx l h
    simp only [visit, genAll_all_truthy ctx l h]
    rfl
  · intro ctx pre e rest v hpre he ht
    simp only [visit, genAny_extend ctx pre (e :: rest) hpre, flOf, genAny, he, ht, if_true]
    rfl
  · intro ctx pre e rest err hpre he
    simp only [visit, genAny_extend ctx pre (e :: rest) hpre, flOf, genAny, he]
    rfl
  · intro ctx l h
    simp only [visit, genAny_all_falsy ctx l h]
    rfl

theorem c6_witness :
    visit ctxTriv (.boolOp .andOp (flOf
      [.constantE (.vbool true), .constantE (.vbool false), .otherNode "Lambda"])) =
      .ok (.vbool false) :=
  c6_boolop_short_circuit.1 ctxTriv [.constantE (.vbool true)] (.constantE (.vbool false))
    [.otherNode "Lambda"] (.vbool false)
    (fun p hp => by rw [List.mem_singleton] at hp; subst hp; exact ⟨.vbool true, rfl, rfl⟩)
    rfl rfl

/-- Counterexample to claim C6 as stated: in the conjunction below, the
second operand is an unsupported node whose evaluation errors, yet the
whole and-expression evaluates to False with no error, because all stops
at the first falsy outcome: an error raised by a later operand does not
surface when an earlier operand already determines the outcome. -/
theorem c6_counterexample :
    visit ctxTriv (.boolOp .andOp (flOf [.constantE (.vbool false), .otherNode "Lambda"])) =
      .ok (.vbool false) ∧
    visit ctxTriv (.otherNode "Lambda") =
      .error (.valueError "invalid node Lambda in filter expression") :=
  ⟨rfl, rfl⟩

/-- Claim C7, corrected.  The claim states that a non-string operand of %
raises TypeError.  The source raises ValueError ("expected a string on
the left/right side"), which is what the selection loop later catches.
This theorem states the amended behaviour: once both operand evaluations
complete, a non-string left operand gives the left ValueError, a string
left with a non-string right gives the right ValueError, and two strings
give the re.search outcome (a match object or None) whose truth value is
the case-insensitive search of the right pattern in the left haystack. -/
theorem c7_mod_string_check :
    ∀ ctx lop rop,
      (∀ lv rv, visit ctx lop = .ok lv → visit ctx rop = .ok rv →
        (∀ z, lv ≠ .vstr z) →
        visit ctx (.binOp lop .modOp rop) =
          .error (.valueError "expected a string on left side of Mod")) ∧
      (∀ a rv, visit ctx lop = .ok (.vstr a) → visit ctx rop = .ok rv →
        (∀ z, rv ≠ .vstr z) →
        visit ctx (.binOp lop .modOp rop) =
          .error (.valueError "expected a string on right side of Mod")) ∧
      (∀ a b, visit ctx lop = .ok (.vstr a) → visit ctx rop = .ok (.vstr b) →
        visit ctx (.binOp lop .modOp rop) =
          .ok (if ctx.research b a then .vmatch else .vnone) ∧
        (visit ctx (.binOp lop .modOp rop)).map truthy = .ok (ctx.research b a)) := by
  intro ctx lop rop
  refine ⟨?_, ?_, ?_⟩
  · intro lv rv hl hr hne
    simp only [visit, hl, hr, Except.bind, pyBinArith]
    cases lv with
    | vstr z => exact absurd rfl (hne z)
    | vint n => rfl
    | vbool b => rfl
    | vset l => rfl
    | vnone => rfl
    | vmatch => rfl
  · intro a rv hl hr hne
    simp only [visit, hl, hr, Except.bind, pyBinArith]
    cases rv with
    | vstr z => exact absurd rfl (hne z)
    | vint n => rfl
    | vbool b => rfl
    | vset l => rfl
    | vnone => rfl
    | vmatch => rfl
  · intro a b hl hr
    have hv : visit ctx (.binOp lop .modOp rop) =
        .ok (if ctx.research b a then Value.vmatch else Value.vnone) := by
      simp only [visit, hl, hr, Except.bind, pyBinArith]
      rfl
    refine ⟨hv, ?_⟩
    rw [hv]
    cases hres : ctx.research b a <;> simp [hres, Except.map, truthy]

theorem c7_witness :
    visit ctxTriv (.binOp (.constantE (.vint 1)) .modOp (.constantE (.vstr "x"))) =
      .error (.valueError "expected a string on left side of Mod") :=
  (c7_mod_string_check ctxTriv (.constantE (.vint 1)) (.constantE (.vstr "x"))).1
    (.vint 1) (.vstr "x") rfl rfl (fun _z h => Value.noConfusion h)

/-- Counterexample to claim C7 as stated: evaluating 1 % "x" fails with
ValueError, not TypeError. -/
theorem c7_counterexample :
    visit ctxTriv (.binOp (.constantE (.vint 1)) .modOp (.constantE (.vstr "x"))) =
      .error (.valueError "expected a string on left side of Mod") ∧
    ∀ m, visit ctxTriv (.binOp (.constantE (.vint 1)) .modOp (.constantE (.vstr "x"))) ≠
      .error (.typeError m) :=
  ⟨rfl, fun m h => by
    have h2 : (Except.error (PyErr.typeError m) : Except PyErr Value) =
        .error (.valueError "expected a string on left side of Mod") := h.symm.trans rfl
    exact PyErr.noConfusion (Except.error.inj h2)⟩

/-! Helper lemmas for the selection loop of
get_filtered_bibliography_entries. -/

theorem goFiltered_recover (ext : ExternalEnv) (s : DomainState) (bib : Bibliography) :
    ∀ entries : List (String × Entry),
      (∀ p ∈ entries, recoverableRes (entryFilterResult ext s bib p.2) = true) →
      goFiltered ext s bib entries =
        .ok (specFiltered ext s bib entries, specFilterWarns ext s bib entries) := by
  intro entries
  induction entries with
  | nil => intro _; rfl
  | cons p rest ih =>
    intro h
    have hrest := fun q hq => h q (List.mem_cons_of_mem p hq)
    have hhead := h p (List.mem_cons_self p rest)
    obtain ⟨k0, e⟩ := p
    cases hfe : entryFilterResult ext s bib e with
    | ok v =>
      simp only [goFiltered, hfe, ih hrest, Except.bind, specFiltered, specFilterWarns,
        List.filter_cons, List.filterMap_cons, specFilterKeeps]
      cases hv : truthy v <;>
        simp [hv, specFiltered, specFilterWarns, specFilterKeeps, hfe] <;> rfl
    | error err =>
      cases err with
      | valueError m =>
        simp only [goFiltered, hfe, ih hrest, Except.bind, specFiltered, specFilterWarns,
          List.filter_cons, List.filterMap_cons, specFilterKeeps]
        cases hc : (cited_docnames_of s.citationRefs (bib.keyP ++ e.key)).isEmpty <;>
          simp [hc, specFiltered, specFilterWarns, specFilterKeeps, hfe] <;> rfl
      | typeError m => rw [hfe] at hhead; exact absurd hhead (by simp [recoverableRes])
      | indexError m => rw [hfe] at hhead; exact absurd hhead (by simp [recoverableRes])
      | pluginNotFound n => rw [hfe] at hhead; exact absurd hhead (by simp [recoverableRes])
      | extensionError m => rw [hfe] at hhead; exact absurd hhead (by simp [recoverableRes])

theorem goFiltered_propagates (ext : ExternalEnv) (s : DomainState) (bib : Bibliography)
    (ke : String × Entry) (post : List (String × Entry)) (m : String) :
    ∀ pre : List (String × Entry),
      (∀ p ∈ pre, recoverableRes (entryFilterResult ext s bib p.2) = true) →
      entryFilterResult ext s bib ke.2 = .error (.typeError m) →
      goFiltered ext s bib (pre ++ ke :: post) = .error (.typeError m) := by
  intro pre
  induction pre with
  | nil =>
    intro _ hke
    obtain ⟨k0, e⟩ := ke
    simp only [List.nil_append, goFiltered, hke]
  | cons p pre' ih =>
    intro h hke
    have hrest := fun q hq => h q (List.mem_cons_of_mem p hq)
    have hhead := h p (List.mem_cons_self p pre')
    obtain ⟨k0, e⟩ := p
    have ihr := ih hrest hke
    cases hfe : entryFilterResult ext s bib e with
    | ok v =>
      rw [List.cons_append]
      simp only [goFiltered, hfe]
      rw [ihr]
      rfl
    | error err =>
      cases err with
      | valueError m2 =>
        rw [List.cons_append]
        simp only [goFiltered, hfe]
        rw [ihr]
        rfl
      | typeError m2 => rw [hfe] at hhead; exact absurd hhead (by simp [recoverableRes])
      | indexError m2 => rw [hfe] at hhead; exact absurd hhead (by simp [recoverableRes])
      | pluginNotFound n => rw [hfe] at hhead; exact absurd hhead (by simp [recoverableRes])
      | extensionError m2 => rw [hfe] at hhead; exact absurd hhead (by simp [recoverableRes])

/-- Claim C4, corrected.  The claim states that every expression error in
a filter (malformed syntax, unsupported node kind, type mismatch in % or
in a comparison) is recovered locally by selecting each entry iff it is
cited, with a warning at the listing location, and never propagates.  The
selection loop only catches ValueError, which covers malformed syntax,
unsupported node kinds, chained comparators and non-string operands of %;
but a type mismatch in an order comparison (or in the operands of in, |
or &) raises TypeError, which is not caught and aborts the whole entry
selection.  First conjunct: when every entry evaluation ends in an
outcome or a ValueError, the selection returns exactly the spec selection
(truthy outcome, or cited fallback on error) with one warning per failed
entry at the listing location.  Second conjunct: a TypeError on some
entry, all entries before it recoverable, propagates to the caller. -/
theorem c4_filter_error_recovery :
    (∀ ext s bib,
      (∀ p ∈ get_bibliography_entries s bib,
        recoverableRes (entryFilterResult ext s bib p.2) = true) →
      get_filtered_bibliography_entries ext s bib =
        .ok (specFiltered ext s bib (get_bibliography_entries s bib),
          specFilterWarns ext s bib (get_bibliography_entries s bib))) ∧
    (∀ ext s bib pre ke post m,
      get_bibliography_entries s bib = pre ++ ke :: post →
      (∀ p ∈ pre, recoverableRes (entryFilterResult ext s bib p.2) = true) →
      entryFilterResult ext s bib ke.2 = .error (.typeError m) →
      get_filtered_bibliography_entries ext s bib = .error (.typeError m)) := by
  constructor
  · intro ext s bib h
    exact goFiltered_recover ext s bib (get_bibliography_entries s bib) h
  · intro ext s bib pre ke post m hsplit hpre hke
    unfold get_filtered_bibliography_entries
    rw [hsplit]
    exact goFiltered_propagates ext s bib ke post m pre hpre hke

theorem c4_witness :
    (∀ p ∈ get_bibliography_entries sBadNode bibBadNode,
      recoverableRes (entryFilterResult extFix sBadNode bibBadNode p.2) = true) ∧
    get_filtered_bibliography_entries extFix sBadNode bibBadNode =
      .ok (specFiltered extFix sBadNode bibBadNode
          (get_bibliography_entries sBadNode bibBadNode),
        specFilterWarns extFix sBadNode bibBadNode
          (get_bibliography_entries sBadNode bibBadNode)) :=
  ⟨by decide, c4_filter_error_recovery.1 extFix sBadNode bibBadNode (by decide)⟩

/-- Counterexample to claim C4 as stated: on a listing whose filter is the
comparison key < 1 (a type mismatch in a comparison), entry selection does
not recover: the TypeError reaches the caller of
get_filtered_bibliography_entries instead of a local fallback. -/
theorem c4_counterexample :
    get_filtered_bibliography_entries extFix sBadCmp bibBadCmp =
      .error (.typeError "unorderable operand types in lt comparison") := rfl

/-! Helper lemmas for the resolution pipeline. -/

theorem popLoop_nil {α : Type} : ∀ ks : List String,
    popLoop ks ([] : List (String × α)) = ([], []) := by
  intro ks
  induction ks with
  | nil => rfl
  | cons k ks ih => simp only [popLoop, lookupA, ih]

/-- Claim C9, corrected.  The claim states that a missing or unknown style
plugin raises a fatal configuration error at setup time, before the
resolution pass, never during it.  In the source, the constructor of the
domain only validates the presence of the bibtex_bibfiles setting
(ExtensionError when absent); the style name is not inspected until
get_labelled_bibliography_entries calls find_plugin, which happens inside
check_consistency, i.e. during the corpus resolution pass.  First and
second conjunct: what setup checks.  Third conjunct: an unknown style of a
registered listing makes the resolution pass itself fail with
PluginNotFound. -/
theorem c9_plugin_error_timing :
    (∀ config : BibtexConfig, config.bibtex_bibfiles ≠ none →
      bibtexDomainInit config = .ok ()) ∧
    (∀ config : BibtexConfig, config.bibtex_bibfiles = none →
      bibtexDomainInit config =
        .error (.extensionError "You must configure the bibtex_bibfiles setting")) ∧
    (∀ ext s bid bib, s.bibliographies = [(bid, bib)] → bib.bibfiles = [] →
      lookupA ext.plugins bib.style = none →
      check_consistency ext s = .error (.pluginNotFound bib.style)) := by
  refine ⟨?_, ?_, ?_⟩
  · intro config h
    cases hc : config.bibtex_bibfiles with
    | none => exact absurd hc h
    | some l => simp [bibtexDomainInit, hc]
  · intro config h
    simp [bibtexDomainInit, h]
  · intro ext s bid bib hbibs hfiles hplug
    have h1 : get_bibliography_entries s bib = [] := by
      unfold get_bibliography_entries
      rw [hfiles]
      rfl
    have h2 : get_filtered_bibliography_entries ext s bib = .ok ([], []) := by
      unfold get_filtered_bibliography_entries
      rw [h1]
      rfl
    have h3 : get_sorted_bibliography_entries ext s bib = .ok ([], []) := by
      unfold get_sorted_bibliography_entries
      rw [h2]
      show Except.ok
        ((popLoop (get_all_cited_keys ext.docnames s.citationRefs) (pyDict [])).1 ++
          (popLoop (get_all_cited_keys ext.docnames s.citationRefs) (pyDict [])).2, []) = _
      rw [show pyDict ([] : List (String × Entry)) = [] from rfl,
        popLoop_nil (get_all_cited_keys ext.docnames s.citationRefs)]
      rfl
    have h4 : get_labelled_bibliography_entries ext s bib =
        .error (.pluginNotFound bib.style) := by
      unfold get_labelled_bibliography_entries find_plugin
      rw [h3, hplug]
      rfl
    have h5 : ccFold ext s s.bibliographies ⟨[], [], [], [], []⟩ =
        .error (.pluginNotFound bib.style) := by
      rw [hbibs]
      simp only [ccFold, ccBib]
      rw [h4]
      rfl
    unfold check_consistency
    rw [h5]
    rfl

theorem c9_witness :
    ((BibtexConfig.mk (some ["f.bib"])).bibtex_bibfiles ≠ none ∧
      sNoPlug.bibliographies = [("b9", bibNoPlug)] ∧ bibNoPlug.bibfiles = [] ∧
      lookupA extFix.plugins bibNoPlug.style = none) ∧
    bibtexDomainInit (BibtexConfig.mk (some ["f.bib"])) = .ok () ∧
    check_consistency extFix sNoPlug = .error (.pluginNotFound bibNoPlug.style) :=
  ⟨⟨by decide, rfl, rfl, rfl⟩,
    c9_plugin_error_timing.1 (BibtexConfig.mk (some ["f.bib"])) (by decide),
    c9_plugin_error_timing.2.2 extFix sNoPlug "b9" bibNoPlug rfl rfl rfl⟩

/-- Counterexample to claim C9 as stated: with a syntactically valid
configuration and a listing naming the unknown style plugin nostyle, setup
succeeds without any error, and the failure is raised only by the
resolution pass itself (check_consistency), contradicting fatal at setup,
never during resolution. -/
theorem c9_counterexample :
    bibtexDomainInit (BibtexConfig.mk (some ["f.bib"])) = .ok () ∧
    check_consistency extFix sNoPlug = .error (.pluginNotFound "nostyle") := ⟨rfl, rfl⟩

/-! The consistency pass reads the registered bibliographies, bib files
and citation references but never the already materialized citations; the
following lemmas make that syntactic fact available for rewriting. -/

theorem goFiltered_cit_irrel (ext : ExternalEnv) (bf : List (String × List Entry))
    (bibs : List (String × Bibliography)) (c1 c2 : List Citation)
    (refs : List CitationRef) (bib : Bibliography) :
    ∀ l, goFiltered ext ⟨bf, bibs, c1, refs⟩ bib l =
      goFiltered ext ⟨bf, bibs, c2, refs⟩ bib l := by
  intro l
  induction l with
  | nil => rfl
  | cons p rest ih =>
    obtain ⟨k0, e⟩ := p
    have he : entryFilterResult ext ⟨bf, bibs, c2, refs⟩ bib e =
        entryFilterResult ext ⟨bf, bibs, c1, refs⟩ bib e := rfl
    simp only [goFiltered, he, ih]

theorem get_labelled_cit_irrel (ext : ExternalEnv) (bf : List (String × List Entry))
    (bibs : List (String × Bibliography)) (c1 c2 : List Citation)
    (refs : List CitationRef) (bib : Bibliography) :
    get_labelled_bibliography_entries ext ⟨bf, bibs, c1, refs⟩ bib =
      get_labelled_bibliography_entries ext ⟨bf, bibs, c2, refs⟩ bib := by
  have hf : get_filtered_bibliography_entries ext ⟨bf, bibs, c1, refs⟩ bib =
      get_filtered_bibliography_entries ext ⟨bf, bibs, c2, refs⟩ bib := by
    unfold get_filtered_bibliography_entries
    exact goFiltered_cit_irrel ext bf bibs c1 c2 refs bib _
  have hs : get_sorted_bibliography_entries ext ⟨bf, bibs, c1, refs⟩ bib =
      get_sorted_bibliography_entries ext ⟨bf, bibs, c2, refs⟩ bib := by
    unfold get_sorted_bibliography_entries
    rw [hf]
  unfold get_labelled_bibliography_entries
  rw [hs]

theorem ccFold_cit_irrel (ext : ExternalEnv) (bf : List (String × List Entry))
    (bibs : List (String × Bibliography)) (c1 c2 : List Citation)
    (refs : List CitationRef) :
    ∀ (bl : List (String × Bibliography)) (acc : CCAcc),
      ccFold ext ⟨bf, bibs, c1, refs⟩ bl acc = ccFold ext ⟨bf, bibs, c2, refs⟩ bl acc := by
  intro bl
  induction bl with
  | nil => intro acc; rfl
  | cons p rest ih =>
    intro acc
    have hb : ccBib ext ⟨bf, bibs, c1, refs⟩ acc p = ccBib ext ⟨bf, bibs, c2, refs⟩ acc p := by
      unfold ccBib
      rw [get_labelled_cit_irrel ext bf bibs c1 c2 refs p.2]
    simp only [ccFold, hb]
    cases ccBib ext ⟨bf, bibs, c2, refs⟩ acc p with
    | error e => rfl
    | ok acc1 => exact ih acc1

/-- Claim C5, corrected.  The claim states that running the consistency
resolver twice over an unchanged registry yields byte-identical citation
lists.  The source appends to the persistent citation list and never
clears it, so a second run appends one more copy of the batch instead of
reproducing the list: the per-run computation is deterministic (the same
batch and the same warnings are produced again, because the pass never
reads the citations it appended), but the resulting list after the second
run is the first-run list followed by a second copy of the batch, not the
first-run list itself. -/
theorem c5_resolver_appends (ext : ExternalEnv) (s : DomainState) {s1 : DomainState}
    {w : List Warning} (h : check_consistency ext s = .ok (s1, w)) :
    ∃ batch, s1.citations = s.citations ++ batch ∧
      check_consistency ext s1 =
        .ok (⟨s1.bibfiles, s1.bibliographies, s1.citations ++ batch, s1.citationRefs⟩, w) := by
  obtain ⟨bf, bibs, cits, refs⟩ := s
  have hb : check_consistency ext ⟨bf, bibs, cits, refs⟩ =
      (do
        let acc ← ccFold ext ⟨bf, bibs, cits, refs⟩ bibs ⟨[], [], [], [], []⟩
        Except.ok ((⟨bf, bibs, cits ++ acc.cits, refs⟩ : DomainState),
          acc.warns ++ labelWarnings acc.usedLabels)) := rfl
  rw [hb] at h
  cases hcf : ccFold ext ⟨bf, bibs, cits, refs⟩ bibs ⟨[], [], [], [], []⟩ with
  | error e =>
    rw [hcf] at h
    exact Except.noConfusion h
  | ok acc =>
    rw [hcf] at h
    replace h : Except.ok (ε := PyErr) ((⟨bf, bibs, cits ++ acc.cits, refs⟩ : DomainState),
        acc.warns ++ labelWarnings acc.usedLabels) = Except.ok (s1, w) := h
    have hp := Except.ok.inj h
    have hs1 : (⟨bf, bibs, cits ++ acc.cits, refs⟩ : DomainState) = s1 := congrArg Prod.fst hp
    have hw : acc.warns ++ labelWarnings acc.usedLabels = w := congrArg Prod.snd hp
    have hcf2 : ccFold ext (⟨bf, bibs, cits ++ acc.cits, refs⟩ : DomainState) bibs
        ⟨[], [], [], [], []⟩ = .ok acc :=
      (ccFold_cit_irrel ext bf bibs (cits ++ acc.cits) cits refs bibs
        ⟨[], [], [], [], []⟩).trans hcf
    have hrun2 : check_consistency ext ⟨bf, bibs, cits ++ acc.cits, refs⟩ =
        .ok ((⟨bf, bibs, (cits ++ acc.cits) ++ acc.cits, refs⟩ : DomainState),
          acc.warns ++ labelWarnings acc.usedLabels) := by
      have hb2 : check_consistency ext ⟨bf, bibs, cits ++ acc.cits, refs⟩ =
          (do
            let acc2 ← ccFold ext ⟨bf, bibs, cits ++ acc.cits, refs⟩ bibs ⟨[], [], [], [], []⟩
            Except.ok ((⟨bf, bibs, (cits ++ acc.cits) ++ acc2.cits, refs⟩ : DomainState),
              acc2.warns ++ labelWarnings acc2.usedLabels)) := rfl
      rw [hb2, hcf2]
      rfl
    refine ⟨acc.cits, ?_, ?_⟩
    · rw [← hs1]
    · rw [← hs1, ← hw]
      exact hrun2

/-- Counterexample to claim C5 as stated: over the one-listing registry
sOneCit, the first run materializes one citation, and a second run over
the unchanged registry leaves two copies in the citation list, which is
not byte-identical to the list after the first run. -/
theorem c5_counterexample :
    (check_consistency extFix sOneCit).map (fun p => p.1.citations) = .ok [cQ] ∧
    (check_consistency extFix s1OneCit).map (fun p => p.1.citations) = .ok [cQ, cQ] ∧
    ([cQ] : List Citation) ≠ [cQ, cQ] :=
  ⟨rfl, rfl, by decide⟩

theorem c5_witness :
    check_consistency extFix sOneCit = .ok (s1OneCit, []) ∧
    ∃ batch, s1OneCit.citations = sOneCit.citations ++ batch ∧
      check_consistency extFix s1OneCit =
        .ok (⟨s1OneCit.bibfiles, s1OneCit.bibliographies, s1OneCit.citations ++ batch,
          s1OneCit.citationRefs⟩, []) :=
  ⟨rfl, c5_resolver_appends extFix sOneCit rfl⟩

/-! Helper lemmas for resolve_xref. -/

theorem contains_singleton (k a : String) : List.contains [k] a = (a == k) := by
  simp only [List.contains, List.elem]
  cases a == k <;> rfl

theorem renderKeys_spec (b e : String) (s : DomainState) (cdict : List (String × Citation))
    (total : Nat) :
    ∀ (ks : List String) (i : Nat),
      renderKeys b e s cdict total i ks =
        (List.flatten ((ks.enumFrom i).map
          (fun ik => specKeyNodes b e s cdict total ik.1 ik.2)),
         ks.filterMap (fun k =>
           if (lookupA cdict k).isNone then some (Warning.keyNotFound k) else none)) := by
  intro ks
  induction ks with
  | nil => intro i; rfl
  | cons k rest ih =>
    intro i
    simp only [renderKeys, List.enumFrom, List.map_cons, List.flatten_cons,
      List.filterMap_cons, ih (i + 1)]
    cases hk : lookupA cdict k with
    | none => simp [specKeyNodes, hk]
    | some c => simp [specKeyNodes, hk]

/-- Claim C3, corrected.  The claim states that the rendered element is an
opening bracket, then for each key either a reference node (anchor = the
citation id, text = the label) or the bare key text with a key-not-found
warning, with commas between consecutive keys, then a closing bracket; and
that a key present in exactly one citation-kind listing resolves to a link
whose anchor is that citation id.  The comma placement is corrected: the
loop appends a comma only after a key that resolved and is not in the last
position; an unresolved key is never followed by a comma because the
continue statement skips the separator.  First conjunct: the full
characterization of the output (specKeyNodes places the comma only in the
resolved branch).  Second conjunct: the round trip for a key with exactly
one matching citation-kind citation. -/
theorem c3_xref_rendering :
    (∀ b e s t,
      resolve_xref b e s t =
        (XNode.textN "[" ::
          (List.flatten ((((pySplit ',' t).map pyStrip).enum).map
            (fun ik => specKeyNodes b e s (resolveCitDict s ((pySplit ',' t).map pyStrip))
              ((pySplit ',' t).map pyStrip).length ik.1 ik.2)) ++ [XNode.textN "]"]),
         ((pySplit ',' t).map pyStrip).filterMap
           (fun k => if (lookupA (resolveCitDict s ((pySplit ',' t).map pyStrip)) k).isNone
             then some (Warning.keyNotFound k) else none))) ∧
    (∀ b e s k c, (pySplit ',' k).map pyStrip = [k] →
      s.citations.filter (fun cit => cit.key == k && citKind s cit) = [c] →
      resolve_xref b e s k = ([XNode.textN "[", mkCitRefNode b e s c, XNode.textN "]"], []) ∧
      anchorOf (mkCitRefNode b e s c) = c.citation_id) := by
  constructor
  · intro b e s t
    show (XNode.textN "[" ::
        (renderKeys b e s (resolveCitDict s ((pySplit ',' t).map pyStrip))
          ((pySplit ',' t).map pyStrip).length 0 ((pySplit ',' t).map pyStrip)).1 ++
        [XNode.textN "]"],
      (renderKeys b e s (resolveCitDict s ((pySplit ',' t).map pyStrip))
        ((pySplit ',' t).map pyStrip).length 0 ((pySplit ',' t).map pyStrip)).2) = _
    rw [renderKeys_spec b e s (resolveCitDict s ((pySplit ',' t).map pyStrip))
      ((pySplit ',' t).map pyStrip).length ((pySplit ',' t).map pyStrip) 0]
    rfl
  · intro b e s k c h1 h2
    have hfilter : s.citations.filter
        (fun cit => List.contains [k] cit.key && citKind s cit) = [c] := by
      rw [List.filter_congr (fun cit _ => by rw [contains_singleton k cit.key])]
      exact h2
    have hck : (c.key == k) = true := by
      have hm : c ∈ s.citations.filter (fun cit => cit.key == k && citKind s cit) := by
        rw [h2]; exact List.mem_singleton.mpr rfl
      have hpred := (List.mem_filter.mp hm).2
      simp only [Bool.and_eq_true] at hpred
      exact hpred.1
    have hdict : resolveCitDict s [k] = [(c.key, c)] := by
      unfold resolveCitDict
      rw [hfilter]
      rfl
    have hlk : lookupA (resolveCitDict s [k]) k = some c := by
      rw [hdict]
      simp [lookupA, hck]
    constructor
    · show (XNode.textN "[" ::
          (renderKeys b e s (resolveCitDict s ((pySplit ',' k).map pyStrip))
            ((pySplit ',' k).map pyStrip).length 0 ((pySplit ',' k).map pyStrip)).1 ++
          [XNode.textN "]"],
        (renderKeys b e s (resolveCitDict s ((pySplit ',' k).map pyStrip))
          ((pySplit ',' k).map pyStrip).length 0 ((pySplit ',' k).map pyStrip)).2) = _
      rw [h1]
      have hr : renderKeys b e s (resolveCitDict s [k]) ([k] : List String).length 0 [k] =
          ([mkCitRefNode b e s c], []) := by
        simp only [renderKeys, hlk]
        rfl
      rw [hr]
      rfl
    · unfold mkCitRefNode
      cases hb : (b == "latex") <;> simp [hb, anchorOf]

theorem c3_witness :
    ((pySplit ',' "Y").map pyStrip = ["Y"] ∧
      sX.citations.filter (fun cit => cit.key == "Y" && citKind sX cit) = [cY]) ∧
    (resolve_xref "html" "docA" sX "Y" =
        ([XNode.textN "[", mkCitRefNode "html" "docA" sX cY, XNode.textN "]"], []) ∧
      anchorOf (mkCitRefNode "html" "docA" sX cY) = cY.citation_id) :=
  ⟨⟨rfl, rfl⟩, c3_xref_rendering.2 "html" "docA" sX "Y" cY rfl rfl⟩

/-- Counterexample to claim C3 as stated: resolving the target X,Y against
a registry where X is unresolvable and Y resolves renders the bare X text
directly followed by the Y reference with no comma between them (the
continue branch skips the separator), while the claim requires commas
between consecutive keys. -/
theorem c3_counterexample :
    resolve_xref "html" "docA" sX "X,Y" =
      ([XNode.textN "[", XNode.inlineN "X",
        XNode.refN "docA" "doc1" (some "bibtex-citation-Y") "[1]", XNode.textN "]"],
       [Warning.keyNotFound "X"]) ∧
    (resolve_xref "html" "docA" sX "X,Y").1.count (XNode.textN ",") = 0 := ⟨rfl, rfl⟩

/-! Helper lemmas for the pop loop of get_sorted_bibliography_entries. -/

theorem lookupA_removeA {α : Type} (k x : String) :
    ∀ es : List (String × α),
      lookupA (removeA es k) x = if x == k then none else lookupA es x := by
  intro es
  induction es with
  | nil =>
    by_cases hxk : x = k <;> simp [removeA, lookupA, hxk]
  | cons p ps ih =>
    simp only [removeA] at ih ⊢
    rw [List.filter_cons]
    by_cases hpk : p.1 = k
    · rw [if_neg (by simp [hpk])]
      rw [ih]
      by_cases hxk : x = k
      · simp [hxk]
      · have hpx : (p.1 == x) = false :=
          beq_eq_false_iff_ne.mpr (by rw [hpk]; exact fun h => hxk h.symm)
        simp [lookupA, hpx, hxk]
    · rw [if_pos (by simp [beq_eq_false_iff_ne.mpr hpk])]
      by_cases hpx : p.1 = x
      · have hxk : ¬x = k := fun h => hpk (hpx.trans h)
        simp [lookupA, hpx, hxk]
      · have hpxb : (p.1 == x) = false := beq_eq_false_iff_ne.mpr hpx
        simp only [lookupA, hpxb, Bool.false_eq_true, if_false]
        rw [ih]

theorem lookupA_none_notmem {α : Type} (k : String) :
    ∀ es : List (String × α), lookupA es k = none → ∀ p ∈ es, (p.1 == k) = false := by
  intro es
  induction es with
  | nil => intro _ p hp; cases hp
  | cons q qs ih =>
    intro h p hp
    by_cases hqk : q.1 = k
    · simp [lookupA, hqk] at h
    · have hqkb : (q.1 == k) = false := beq_eq_false_iff_ne.mpr hqk
      simp only [lookupA, hqkb, if_false] at h
      rcases List.mem_cons.mp hp with hpq | hmem
      · rw [hpq]; exact hqkb
      · exact ih h p hmem

theorem filterMap_lookup_skip {α : Type} (es : List (String × α)) (k : String)
    (hnone : lookupA es k = none) :
    ∀ l : List String,
      (l.filter (fun x => !(x == k))).filterMap
          (fun x => (lookupA es x).map (fun e => (x, e))) =
        l.filterMap (fun x => (lookupA es x).map (fun e => (x, e))) := by
  intro l
  induction l with
  | nil => rfl
  | cons x xs ih =>
    by_cases hxk : x = k
    · subst hxk
      simp [List.filter_cons, List.filterMap_cons, hnone, ih]
    · have hxkb : (x == k) = false := beq_eq_false_iff_ne.mpr hxk
      simp only [List.filter_cons, hxkb, Bool.not_false, if_true, List.filterMap_cons, ih]

theorem filterMap_lookup_removeA {α : Type} (es : List (String × α)) (k : String) :
    ∀ l : List String,
      l.filterMap (fun x => (lookupA (removeA es k) x).map (fun e => (x, e))) =
        (l.filter (fun x => !(x == k))).filterMap
          (fun x => (lookupA es x).map (fun e => (x, e))) := by
  intro l
  induction l with
  | nil => rfl
  | cons x xs ih =>
    by_cases hxk : x = k
    · subst hxk
      have h1 : lookupA (removeA es x) x = none := by
        rw [lookupA_removeA x x es]
        simp
      simp [List.filterMap_cons, List.filter_cons, h1, ih]
    · have hxkb : (x == k) = false := beq_eq_false_iff_ne.mpr hxk
      have h1 : lookupA (removeA es k) x = lookupA es x := by
        rw [lookupA_removeA k x es, hxkb]
        rfl
      simp only [List.filterMap_cons, List.filter_cons, h1, hxkb, Bool.not_false, if_true, ih]

theorem popLoop_yield {α : Type} :
    ∀ (ks : List String) (es : List (String × α)),
      (popLoop ks es).1 =
        (dedupFirst ks).filterMap (fun k => (lookupA es k).map (fun e => (k, e))) := by
  intro ks
  induction ks with
  | nil => intro es; rfl
  | cons k ks ih =>
    intro es
    rw [show dedupFirst (k :: ks) = k :: (dedupFirst ks).filter (fun x => !(x == k)) from rfl]
    cases hk : lookupA es k with
    | some e =>
      rw [List.filterMap_cons_some (b := (k, e)) (by rw [hk]; rfl)]
      simp only [popLoop, hk]
      rw [ih (removeA es k), filterMap_lookup_removeA es k (dedupFirst ks)]
    | none =>
      rw [List.filterMap_cons_none (by rw [hk]; rfl)]
      simp only [popLoop, hk]
      rw [ih es, ← filterMap_lookup_skip es k hk (dedupFirst ks)]

theorem contains_cons_str (x k : String) (ks : List String) :
    List.contains (k :: ks) x = ((x == k) || List.contains ks x) := by
  simp only [List.contains, List.elem]
  cases x == k <;> rfl

theorem popLoop_rest {α : Type} :
    ∀ (ks : List String) (es : List (String × α)),
      (popLoop ks es).2 = es.filter (fun p => !(List.contains ks p.1)) := by
  intro ks
  induction ks with
  | nil => intro es; simp [popLoop, List.contains]
  | cons k ks ih =>
    intro es
    cases hk : lookupA es k with
    | some e =>
      simp only [popLoop, hk]
      rw [ih (removeA es k)]
      unfold removeA
      rw [List.filter_filter]
      apply List.filter_congr
      intro p _
      rw [contains_cons_str p.1 k ks]
      cases hpk : (p.1 == k) <;> cases List.contains ks p.1 <;> rfl
    | none =>
      simp only [popLoop, hk]
      rw [ih es]
      apply List.filter_congr
      intro p hp
      rw [contains_cons_str p.1 k ks, lookupA_none_notmem k es hk p hp]
      rfl

/-! Helper lemmas identifying the stable sort of get_all_cited_keys with
the bucket form of the specified citation stream. -/

theorem indexOf_cons_str (x d : String) (ds : List String) :
    List.indexOf x (d :: ds) = if d == x then 0 else List.indexOf x ds + 1 := by
  simp only [List.indexOf, List.findIdx_cons]
  cases d == x <;> rfl

theorem pairwise_indexOf_lt (l : List String) (h : l.Nodup) :
    List.Pairwise (fun a b => List.indexOf a l < List.indexOf b l) l := by
  induction l with
  | nil => exact List.Pairwise.nil
  | cons d ds ih =>
    obtain ⟨hd, hds⟩ := List.nodup_cons.mp h
    refine List.Pairwise.cons ?_ ?_
    · intro b hb
      have hdb : (d == b) = false :=
        beq_eq_false_iff_ne.mpr (fun hdb => hd (hdb ▸ hb))
      rw [indexOf_cons_str d d ds, indexOf_cons_str b d ds, hdb]
      simp
    · refine (ih hds).imp_of_mem ?_
      intro a b ha hb hab
      have hda : (d == a) = false := beq_eq_false_iff_ne.mpr (fun hda => hd (hda ▸ ha))
      have hdb : (d == b) = false := beq_eq_false_iff_ne.mpr (fun hdb => hd (hdb ▸ hb))
      rw [indexOf_cons_str a d ds, indexOf_cons_str b d ds, hda, hdb]
      simpa using hab

theorem insertByKey_append_le (keyf : CitationRef → Nat) (x : CitationRef) :
    ∀ (l1 l2 : List CitationRef), (∀ y ∈ l1, keyf y ≤ keyf x) →
      insertByKey keyf x (l1 ++ l2) = l1 ++ insertByKey keyf x l2 := by
  intro l1
  induction l1 with
  | nil => intro l2 _; rfl
  | cons y ys ih =>
    intro l2 h
    have hy : keyf y ≤ keyf x := h y (List.mem_cons_self y ys)
    simp only [List.cons_append, insertByKey, if_pos hy]
    show y :: insertByKey keyf x (ys ++ l2) = y :: (ys ++ insertByKey keyf x l2)
    rw [ih l2 (fun z hz => h z (List.mem_cons_of_mem y hz))]

theorem insertByKey_front (keyf : CitationRef → Nat) (x : CitationRef) :
    ∀ l2 : List CitationRef, (∀ z ∈ l2.head?, ¬keyf z ≤ keyf x) →
      insertByKey keyf x l2 = x :: l2 := by
  intro l2 h
  cases l2 with
  | nil => rfl
  | cons z zs =>
    have hz : ¬keyf z ≤ keyf x := h z rfl
    simp only [insertByKey, if_neg hz]

theorem insert_into_buckets (ki : String → Nat) (f : String → List CitationRef)
    (x : CitationRef) :
    ∀ ds : List String, List.Pairwise (fun a b => ki a < ki b) ds →
      (∀ d ∈ ds, ∀ y ∈ f d, y.docname = d) →
      x.docname ∈ ds →
      insertByKey (fun r => ki r.docname) x (List.flatten (ds.map f)) =
        List.flatten (ds.map (fun d => f d ++ (if x.docname == d then [x] else []))) := by
  intro ds
  induction ds with
  | nil => intro _ _ hx; cases hx
  | cons d ds' ih =>
    intro hpw hf hx
    obtain ⟨hdlt, hpw'⟩ := List.pairwise_cons.mp hpw
    simp only [List.map_cons, List.flatten_cons]
    by_cases hxd : x.docname = d
    · have hled : ∀ y ∈ f d, (fun r => ki r.docname) y ≤ (fun r => ki r.docname) x := by
        intro y hy
        show ki y.docname ≤ ki x.docname
        rw [hf d (List.mem_cons_self d ds') y hy, hxd]
      rw [insertByKey_append_le (fun r => ki r.docname) x (f d)
        (List.flatten (ds'.map f)) hled]
      have hfront : insertByKey (fun r => ki r.docname) x (List.flatten (ds'.map f)) =
          x :: List.flatten (ds'.map f) := by
        apply insertByKey_front
        intro z hz
        have hzmem : z ∈ List.flatten (ds'.map f) := by
          cases hfl : List.flatten (ds'.map f) with
          | nil => rw [hfl] at hz; simp at hz
          | cons w ws =>
            rw [hfl] at hz
            have hzw : z = w := by
              have : w = z := by simpa using hz
              exact this.symm
            rw [hzw]
            exact List.mem_cons_self w ws
        obtain ⟨lsub, hlsub, hzin⟩ := List.mem_flatten.mp hzmem
        obtain ⟨d', hd', hfd'⟩ := List.mem_map.mp hlsub
        have hzdoc : z.docname = d' := hf d' (List.mem_cons_of_mem d hd') z (hfd' ▸ hzin)
        have hlt : ki d < ki d' := hdlt d' hd'
        show ¬ki z.docname ≤ ki x.docname
        rw [hzdoc, hxd]
        omega
      rw [hfront]
      have hifs : ds'.map (fun d' => f d' ++ (if x.docname == d' then [x] else [])) =
          ds'.map f := by
        apply List.map_congr_left
        intro d' hd'
        have hne : (x.docname == d') = false := by
          refine beq_eq_false_iff_ne.mpr ?_
          intro hcontra
          have : ki d < ki d' := hdlt d' hd'
          rw [← hcontra, hxd] at this
          omega
        rw [hne]
        simp
      rw [hifs, beq_iff_eq.mpr hxd]
      simp
    · have hx' : x.docname ∈ ds' := by
        rcases List.mem_cons.mp hx with h1 | h2
        · exact absurd h1 hxd
        · exact h2
      have hled : ∀ y ∈ f d, (fun r => ki r.docname) y ≤ (fun r => ki r.docname) x := by
        intro y hy
        show ki y.docname ≤ ki x.docname
        rw [hf d (List.mem_cons_self d ds') y hy]
        have : ki d < ki x.docname := hdlt x.docname hx'
        omega
      rw [insertByKey_append_le (fun r => ki r.docname) x (f d)
        (List.flatten (ds'.map f)) hled]
      rw [ih hpw' (fun d' hd' => hf d' (List.mem_cons_of_mem d hd')) hx']
      have hne : (x.docname == d) = false := beq_eq_false_iff_ne.mpr hxd
      rw [hne]
      simp

theorem pySorted_buckets (docnames : List String) (hnd : docnames.Nodup) :
    ∀ refs : List CitationRef, (∀ r ∈ refs, r.docname ∈ docnames) →
      pySorted (fun r => List.indexOf r.docname docnames) refs =
        List.flatten (docnames.map (fun d => refs.filter (fun r => r.docname == d))) := by
  intro refs
  induction refs using List.reverseRecOn with
  | nil =>
    intro _
    simp [pySorted]
  | append_singleton l r ih =>
    intro h
    have hl : ∀ q ∈ l, q.docname ∈ docnames :=
      fun q hq => h q (List.mem_append.mpr (Or.inl hq))
    have hr : r.docname ∈ docnames :=
      h r (List.mem_append.mpr (Or.inr (List.mem_singleton.mpr rfl)))
    unfold pySorted
    rw [List.foldl_append]
    have hfold : List.foldl (fun acc x => insertByKey (fun c => List.indexOf c.docname
        docnames) x acc) [] l = pySorted (fun c => List.indexOf c.docname docnames) l := rfl
    rw [hfold, ih hl]
    simp only [List.foldl_cons, List.foldl_nil]
    rw [insert_into_buckets (fun d => List.indexOf d docnames)
      (fun d => l.filter (fun q => q.docname == d)) r docnames
      (pairwise_indexOf_lt docnames hnd)
      (fun d _ y hy => beq_iff_eq.mp (List.mem_filter.mp hy).2) hr]
    apply congrArg
    apply List.map_congr_left
    intro d _
    rw [List.filter_append]
    apply congrArg
    simp only [List.filter_cons, List.filter_nil]

theorem flatten_map_flatten {α β : Type} (g : α → List β) :
    ∀ L : List (List α),
      List.flatten ((List.flatten L).map g) =
        List.flatten (L.map (fun c => List.flatten (c.map g))) := by
  intro L
  induction L with
  | nil => rfl
  | cons c cs ih =>
    simp only [List.flatten_cons, List.map_append, List.flatten_append, List.map_cons, ih]

theorem get_all_cited_keys_spec (docnames : List String) (refs : List CitationRef)
    (hnd : docnames.Nodup) (href : ∀ r ∈ refs, r.docname ∈ docnames) :
    get_all_cited_keys docnames refs = specCitedSeq docnames refs := by
  unfold get_all_cited_keys specCitedSeq
  rw [pySorted_buckets docnames hnd refs href]
  rw [flatten_map_flatten (fun c : CitationRef => c.keys)
    (docnames.map (fun d => refs.filter (fun r => r.docname == d)))]
  rw [List.map_map]
  rfl

/-- Claim C2, confirmed.  First conjunct: for every listing, when the
corpus linearization has no duplicate document and every citation
reference belongs to a linearized document (both invariants of the build
environment), the entries handed onward are exactly the selected entries
reordered as the claim states: first the keys cited anywhere in the
corpus, ordered by citing-document position in the linearization and by
first-citation occurrence inside a document (specCitedSeq dedupFirst
order), then the remaining selected entries in bibliography-file order
(specReorder).  Second conjunct: the concrete scenario of the claim, with
document D1 citing B then A, document D2 citing A then C, and the filter
selecting A, B, C, D with D uncited: the resolved order is B, A, C, D. -/
theorem c2_listing_order :
    (∀ ext s bib, ext.docnames.Nodup →
      (∀ r ∈ s.citationRefs, r.docname ∈ ext.docnames) →
      get_sorted_bibliography_entries ext s bib =
        (get_filtered_bibliography_entries ext s bib).map
          (fun pr => (specReorder (pyDict pr.1) (specCitedSeq ext.docnames s.citationRefs),
            pr.2))) ∧
    get_sorted_bibliography_entries extD sScen bibAll =
      .ok ([("B", eB), ("A", eA), ("C", eC), ("D", eD)], []) := by
  constructor
  · intro ext s bib hnd href
    unfold get_sorted_bibliography_entries
    cases hgf : get_filtered_bibliography_entries ext s bib with
    | error e => rfl
    | ok pr =>
      show Except.ok
        ((popLoop (get_all_cited_keys ext.docnames s.citationRefs) (pyDict pr.1)).1 ++
          (popLoop (get_all_cited_keys ext.docnames s.citationRefs) (pyDict pr.1)).2,
          pr.2) = _
      rw [popLoop_yield (get_all_cited_keys ext.docnames s.citationRefs) (pyDict pr.1),
        popLoop_rest (get_all_cited_keys ext.docnames s.citationRefs) (pyDict pr.1),
        get_all_cited_keys_spec ext.docnames s.citationRefs hnd href]
      rfl
  · rfl

theorem c2_witness :
    (extD.docnames.Nodup ∧ ∀ r ∈ sScen.citationRefs, r.docname ∈ extD.docnames) ∧
    get_sorted_bibliography_entries extD sScen bibAll =
      (get_filtered_bibliography_entries extD sScen bibAll).map
        (fun pr => (specReorder (pyDict pr.1)
          (specCitedSeq extD.docnames sScen.citationRefs), pr.2)) :=
  ⟨⟨by decide, by decide⟩, c2_listing_order.1 extD sScen bibAll (by decide) (by decide)⟩

/-! List bookkeeping lemmas for the check_consistency invariant. -/

theorem contains_append_str (l : List String) (k x : String) :
    List.contains (l ++ [k]) x = (List.contains l x || (x == k)) := by
  induction l with
  | nil =>
    simp only [List.nil_append, List.contains, List.elem]
    cases x == k <;> rfl
  | cons y ys ih =>
    rw [List.cons_append, contains_cons_str x y (ys ++ [k]), contains_cons_str x y ys, ih]
    cases x == y <;> cases List.contains ys x <;> cases x == k <;> rfl

theorem lookupA_append {α : Type} (l1 l2 : List (String × α)) (k : String) :
    lookupA (l1 ++ l2) k =
      match lookupA l1 k with
      | some v => some v
      | none => lookupA l2 k := by
  induction l1 with
  | nil => rfl
  | cons p ps ih =>
    by_cases hpk : p.1 = k
    · simp [lookupA, hpk]
    · have hpkb : (p.1 == k) = false := beq_eq_false_iff_ne.mpr hpk
      simp only [List.cons_append, lookupA, hpkb, Bool.false_eq_true, if_false]
      exact ih

theorem nodup_lookupA_mem {α : Type} :
    ∀ l : List (String × α), (l.map Prod.fst).Nodup →
      ∀ k v, (k, v) ∈ l → lookupA l k = some v := by
  intro l
  induction l with
  | nil => intro _ k v hm; cases hm
  | cons p ps ih =>
    intro hnd k v hm
    rw [List.map_cons] at hnd
    obtain ⟨hp, hps⟩ := List.nodup_cons.mp hnd
    rcases List.mem_cons.mp hm with hpe | hmem
    · rw [← hpe]
      simp [lookupA]
    · have hk : p.1 ≠ k := by
        intro hpk
        exact hp (hpk ▸ (List.mem_map.mpr ⟨(k, v), hmem, rfl⟩))
      have hkb : (p.1 == k) = false := beq_eq_false_iff_ne.mpr hk
      simp only [lookupA, hkb, Bool.false_eq_true, if_false]
      exact ih hps k v hmem

theorem contains_filter_ne (k x : String) (hkx : (k == x) = false) :
    ∀ l : List String, (l.filter (fun z => !(z == x))).contains k = l.contains k := by
  intro l
  induction l with
  | nil => rfl
  | cons z zs ih =>
    rw [List.filter_cons]
    by_cases hzx : z = x
    · rw [if_neg (by simp [hzx])]
      rw [ih, contains_cons_str k z zs]
      have hkz : (k == z) = false := by rw [hzx]; exact hkx
      rw [hkz]
      rfl
    · rw [if_pos (by simp [beq_eq_false_iff_ne.mpr hzx])]
      rw [contains_cons_str k z ((zs.filter (fun z => !(z == x)))), ih,
        contains_cons_str k z zs]

theorem dedupFirst_contains (k : String) :
    ∀ xs : List String, (dedupFirst xs).contains k = xs.contains k := by
  intro xs
  induction xs with
  | nil => rfl
  | cons x xs ih =>
    rw [show dedupFirst (x :: xs) =
      x :: (dedupFirst xs).filter (fun z => !(z == x)) from rfl]
    rw [contains_cons_str k x ((dedupFirst xs).filter (fun z => !(z == x))),
      contains_cons_str k x xs]
    by_cases hkx : k = x
    · simp [hkx]
    · have hkxb : (k == x) = false := beq_eq_false_iff_ne.mpr hkx
      rw [hkxb, contains_filter_ne k x hkxb (dedupFirst xs), ih]

theorem dedupFirst_snoc (k : String) :
    ∀ xs : List String, dedupFirst (xs ++ [k]) =
      if xs.contains k then dedupFirst xs else dedupFirst xs ++ [k] := by
  intro xs
  induction xs with
  | nil =>
    rw [List.nil_append]
    rw [show (List.contains [] k) = false from rfl]
    rfl
  | cons x xs ih =>
    rw [List.cons_append]
    rw [show dedupFirst (x :: (xs ++ [k])) =
      x :: (dedupFirst (xs ++ [k])).filter (fun z => !(z == x)) from rfl]
    rw [show dedupFirst (x :: xs) =
      x :: (dedupFirst xs).filter (fun z => !(z == x)) from rfl]
    rw [ih, contains_cons_str k x xs]
    by_cases hkx : k = x
    · rw [beq_iff_eq.mpr hkx]
      rw [show (true || List.contains xs k) = true from rfl, if_pos rfl]
      by_cases hxs : xs.contains k
      · rw [if_pos hxs]
      · rw [if_neg hxs, List.filter_append]
        have : List.filter (fun z => !(z == x)) [k] = [] := by
          simp [List.filter_cons, hkx]
        rw [this, List.append_nil]
    · have hkxb : (k == x) = false := beq_eq_false_iff_ne.mpr hkx
      rw [hkxb]
      rw [show (false || List.contains xs k) = List.contains xs k from rfl]
      by_cases hxs : xs.contains k
      · rw [if_pos hxs, if_pos hxs]
      · rw [if_neg hxs, if_neg hxs, List.filter_append]
        have : List.filter (fun z => !(z == x)) [k] = [k] := by
          simp [List.filter_cons, hkxb]
        rw [this]
        rfl

theorem dedupFirst_eq_nil : ∀ xs : List String, dedupFirst xs = [] → xs = [] := by
  intro xs h
  cases xs with
  | nil => rfl
  | cons x t => exact absurd h (by simp [dedupFirst])

theorem any_eq_lookupA_isSome {α : Type} (lbl : String) :
    ∀ ul : List (String × α), ul.any (fun p => p.1 == lbl) = (lookupA ul lbl).isSome := by
  intro ul
  induction ul with
  | nil => rfl
  | cons p ps ih =>
    cases hp : (p.1 == lbl) <;> simp [lookupA, hp, ih]

theorem lookupA_map_update (label key lbl : String) :
    ∀ ul : List (String × List String),
      lookupA (ul.map (fun p => if p.1 == label then
          (p.1, if p.2.contains key then p.2 else p.2 ++ [key]) else p)) lbl =
        if lbl == label then
          (lookupA ul lbl).map (fun ks => if ks.contains key then ks else ks ++ [key])
        else lookupA ul lbl := by
  intro ul
  induction ul with
  | nil => cases hl : (lbl == label) <;> simp [lookupA, hl]
  | cons p ps ih =>
    by_cases hpl : p.1 = label
    · by_cases hll : lbl = label
      · have h1 : (p.1 == label) = true := beq_iff_eq.mpr hpl
        have h2 : (p.1 == lbl) = true := beq_iff_eq.mpr (hpl.trans hll.symm)
        have h3 : (lbl == label) = true := beq_iff_eq.mpr hll
        simp [lookupA, h1, h2, h3]
      · have h1 : (p.1 == label) = true := beq_iff_eq.mpr hpl
        have h2 : (p.1 == lbl) = false :=
          beq_eq_false_iff_ne.mpr (fun h => hll (h ▸ hpl))
        have h3 : (lbl == label) = false := beq_eq_false_iff_ne.mpr hll
        simp only [List.map_cons, h1, if_true, lookupA, h2, Bool.false_eq_true, if_false,
          ih, h3]
    · have h1 : (p.1 == label) = false := beq_eq_false_iff_ne.mpr hpl
      by_cases hpls : p.1 = lbl
      · have h2 : (p.1 == lbl) = true := beq_iff_eq.mpr hpls
        have h3 : (lbl == label) = false :=
          beq_eq_false_iff_ne.mpr (fun h => hpl (hpls.trans h))
        simp [lookupA, h1, h2, h3]
      · have h2 : (p.1 == lbl) = false := beq_eq_false_iff_ne.mpr hpls
        simp only [List.map_cons, h1, Bool.false_eq_true, if_false, lookupA, h2, ih]

theorem lookupA_addLabelKey (label key lbl : String) (ul : List (String × List String)) :
    lookupA (addLabelKey ul label key) lbl =
      if lbl == label then
        some (match lookupA ul label with
          | some ks => if ks.contains key then ks else ks ++ [key]
          | none => [key])
      else lookupA ul lbl := by
  unfold addLabelKey
  cases hany : ul.any (fun p => p.1 == label) with
  | true =>
    rw [if_pos rfl]
    rw [lookupA_map_update label key lbl ul]
    rw [any_eq_lookupA_isSome label ul] at hany
    cases hlk : lookupA ul label with
    | none => rw [hlk] at hany; cases hany
    | some ks =>
      by_cases hll : lbl = label
      · rw [beq_iff_eq.mpr hll, if_pos rfl, if_pos rfl, hll, hlk]
        rfl
      · have h3 : (lbl == label) = false := beq_eq_false_iff_ne.mpr hll
        rw [h3]
        simp
  | false =>
    rw [if_neg (by simp)]
    rw [lookupA_append ul [(label, [key])] lbl]
    by_cases hll : lbl = label
    · have hnone : lookupA ul lbl = none := by
        rw [any_eq_lookupA_isSome label ul] at hany
        rw [hll]
        cases hlk : lookupA ul label with
        | none => rfl
        | some ks => rw [hlk] at hany; cases hany
      rw [hnone]
      have h3 : (lbl == label) = true := beq_iff_eq.mpr hll
      rw [h3]
      have hlu : lookupA ul label = none := hll ▸ hnone
      rw [hlu]
      simp [lookupA, beq_iff_eq.mpr hll.symm]
    · have h3 : (lbl == label) = false := beq_eq_false_iff_ne.mpr hll
      have h4 : (label == lbl) = false := beq_eq_false_iff_ne.mpr (fun h => hll h.symm)
      rw [h3]
      cases hlk : lookupA ul lbl with
      | some v => rfl
      | none =>
        show lookupA [(label, [key])] lbl = none
        simp [lookupA, h4]

theorem addLabelKey_fsts (label key : String) (ul : List (String × List String)) :
    (addLabelKey ul label key).map Prod.fst =
      if ul.any (fun p => p.1 == label) then ul.map Prod.fst
      else ul.map Prod.fst ++ [label] := by
  unfold addLabelKey
  cases hany : ul.any (fun p => p.1 == label) with
  | true =>
    rw [if_pos rfl, if_pos rfl, List.map_map]
    apply List.map_congr_left
    intro p _
    cases hpb : (p.1 == label) with
    | true => simp [if_pos (beq_iff_eq.mp hpb)]
    | false => simp [if_neg (beq_eq_false_iff_ne.mp hpb)]
  | false =>
    rw [if_neg (by simp), if_neg (by simp), List.map_append]
    rfl

theorem addLabelKey_nodup (label key : String) (ul : List (String × List String))
    (h : (ul.map Prod.fst).Nodup) : ((addLabelKey ul label key).map Prod.fst).Nodup := by
  rw [addLabelKey_fsts label key ul]
  cases hany : ul.any (fun p => p.1 == label) with
  | true => rw [if_pos rfl]; exact h
  | false =>
    rw [if_neg (by simp)]
    have hnot : label ∉ ul.map Prod.fst := by
      intro hmem
      obtain ⟨p, hp, hfst⟩ := List.mem_map.mp hmem
      have : ul.any (fun q => q.1 == label) = true :=
        List.any_eq_true.mpr ⟨p, hp, beq_iff_eq.mpr hfst⟩
      rw [hany] at this
      cases this
    simp [List.nodup_append, h, hnot]

theorem citKind_mk (s : DomainState) (bid : String) (bib : Bibliography)
    (hlk : lookupA s.bibliographies bid = some bib) (c : Citation)
    (hc : c.bibliography_id = bid) : citKind s c = (bib.list_ == "citation") := by
  unfold citKind bibliographyOf
  rw [hc, hlk]
  rfl

theorem snoc_decomp {α : Type} (xs : List α) (y : α) :
    ∀ (l1 : List α) (c : α) (l2 : List α), xs ++ [y] = l1 ++ c :: l2 →
      (∃ l2', xs = l1 ++ c :: l2' ∧ l2 = l2' ++ [y]) ∨ (l1 = xs ∧ c = y ∧ l2 = []) := by
  intro l1 c l2
  induction l2 using List.reverseRecOn with
  | nil =>
    intro h
    right
    obtain ⟨h1, h2⟩ := List.append_inj' h (by simp)
    exact ⟨h1.symm, (by simpa using h2.symm), rfl⟩
  | append_singleton l2' z =>
    intro h
    left
    have h' : xs ++ [y] = (l1 ++ c :: l2') ++ [z] := by
      rw [h]
      simp
    obtain ⟨h1, h2⟩ := List.append_inj' h' (by simp)
    have hyz : y = z := by simpa using h2
    exact ⟨l2', h1, by rw [hyz]⟩

/-- The invariant holds of the empty accumulator. -/
theorem ccInv_init (s : DomainState) : ccInv s ⟨[], [], [], [], []⟩ := by
  refine ⟨?_, ?_, ?_, ?_, ?_, ?_⟩
  · intro c hc; cases hc
  · intro k hk; cases hk
  · intro l1 c l2 heq
    exact absurd heq.symm (by simp)
  · intro lbl; rfl
  · exact List.nodup_nil
  · intro lbl ks hm; cases hm

/-- The invariant is preserved by appending one citation with the id and
warning of one of the three branches of the inner loop. -/
theorem ccInv_snoc (s : DomainState) (acc : CCAcc) (hinv : ccInv s acc)
    (bid : String) (bib : Bibliography) (hlk : lookupA s.bibliographies bid = some bib)
    (key label ek el : String) (cid : Option String) (ws : List Warning)
    (hbranch :
      ((bib.list_ == "citation") = false ∧ cid = none ∧ ws = []) ∨
      ((bib.list_ == "citation") = true ∧ acc.usedKeys.contains key = true ∧ cid = none ∧
        ws = [Warning.duplicateCitation key bib.docname bib.line]) ∨
      ((bib.list_ == "citation") = true ∧ acc.usedKeys.contains key = false ∧
        cid.isSome = true ∧ ws = [])) :
    ccInv s { usedKeys := acc.usedKeys ++ [key],
              usedLabels := addLabelKey acc.usedLabels label key,
              usedIds := acc.usedIds ++ [cid],
              cits := acc.cits ++ [⟨cid, bid, key, label, ek, el⟩],
              warns := acc.warns ++ ws } := by
  obtain ⟨hK1, hK2, hP, hL1, hL2, hL3⟩ := hinv
  have hkind' : citKind s ⟨cid, bid, key, label, ek, el⟩ = (bib.list_ == "citation") :=
    citKind_mk s bid bib hlk _ rfl
  refine ⟨?_, ?_, ?_, ?_, ?_, ?_⟩
  · intro c hc
    rw [contains_append_str]
    rcases List.mem_append.mp hc with hold | hnew
    · rw [hK1 c hold]
      rfl
    · rw [List.mem_singleton.mp hnew]
      show (List.contains acc.usedKeys key || (key == key)) = true
      simp
  · intro k hk
    rw [contains_append_str, Bool.or_eq_true] at hk
    rcases hk with hold | hnew
    · obtain ⟨c, hc, hck⟩ := hK2 k hold
      exact ⟨c, List.mem_append_left _ hc, hck⟩
    · refine ⟨⟨cid, bid, key, label, ek, el⟩,
        List.mem_append_right _ (List.mem_singleton.mpr rfl), ?_⟩
      show key = k
      exact (beq_iff_eq.mp hnew).symm
  · intro l1 c l2 heq
    rcases snoc_decomp acc.cits ⟨cid, bid, key, label, ek, el⟩ l1 c l2 heq with
      ⟨l2', hxs, _⟩ | ⟨hl1, hc, _⟩
    · obtain ⟨p1, p2, p3, p4⟩ := hP l1 c l2' hxs
      refine ⟨p1, p2, fun hk hd => ?_, p4⟩
      obtain ⟨hn, bib2, hb2, hm2⟩ := p3 hk hd
      exact ⟨hn, bib2, hb2, List.mem_append_left ws hm2⟩
    · subst hc
      subst hl1
      refine ⟨?_, ?_, ?_, ?_⟩
      · intro ⟨a, ha, hak⟩
        have hcont : acc.usedKeys.contains key = true := by
          have := hK1 a ha
          rw [show a.key = key from hak] at this
          exact this
        rcases hbranch with ⟨_, hcid, _⟩ | ⟨_, _, hcid, _⟩ | ⟨_, hfalse, _, _⟩
        · exact hcid
        · exact hcid
        · rw [hcont] at hfalse; cases hfalse
      · intro hkfalse
        rw [hkind'] at hkfalse
        rcases hbranch with ⟨_, hcid, _⟩ | ⟨htrue, _, _, _⟩ | ⟨htrue, _, _, _⟩
        · exact hcid
        · rw [htrue] at hkfalse; cases hkfalse
        · rw [htrue] at hkfalse; cases hkfalse
      · intro hktrue ⟨a, ha, hak⟩
        have hcont : acc.usedKeys.contains key = true := by
          have := hK1 a ha
          rw [show a.key = key from hak] at this
          exact this
        rw [hkind'] at hktrue
        rcases hbranch with ⟨hfalse, _, _⟩ | ⟨_, _, hcid, hws⟩ | ⟨_, hfalse, _, _⟩
        · rw [hktrue] at hfalse; cases hfalse
        · refine ⟨hcid, bib, hlk, ?_⟩
          rw [hws]
          exact List.mem_append_right _ (List.mem_singleton.mpr rfl)
        · rw [hcont] at hfalse; cases hfalse
      · intro hktrue hnone
        rw [hkind'] at hktrue
        rcases hbranch with ⟨hfalse, _, _⟩ | ⟨_, hcont, _, _⟩ | ⟨_, _, hsome, _⟩
        · rw [hktrue] at hfalse; cases hfalse
        · obtain ⟨c0, hc0, hc0k⟩ := hK2 key hcont
          exact absurd hc0k (hnone c0 hc0)
        · exact hsome
  · intro lbl
    show labelKeysOf (addLabelKey acc.usedLabels label key) lbl = _
    unfold labelKeysOf
    rw [lookupA_addLabelKey label key lbl acc.usedLabels]
    rw [List.filter_append, List.map_append]
    have hfc : List.filter (fun c : Citation => c.label == lbl)
        [⟨cid, bid, key, label, ek, el⟩] =
        if (label == lbl) = true then [(⟨cid, bid, key, label, ek, el⟩ : Citation)]
        else [] := by
      simp only [List.filter_cons, List.filter_nil]
    rw [hfc]
    have hold := hL1 lbl
    unfold labelKeysOf at hold
    by_cases hll : lbl = label
    · have h1 : (lbl == label) = true := beq_iff_eq.mpr hll
      have h2 : (label == lbl) = true := beq_iff_eq.mpr hll.symm
      rw [h1, h2, if_pos rfl, if_pos rfl, List.map_cons, List.map_nil]
      show (match lookupA acc.usedLabels label with
        | some ks => if ks.contains key then ks else ks ++ [key]
        | none => [key]) = _
      rw [show (⟨cid, bid, key, label, ek, el⟩ : Citation).key = key from rfl]
      rw [dedupFirst_snoc key ((acc.cits.filter
        (fun c => c.label == lbl)).map (fun c => c.key))]
      cases hlku : lookupA acc.usedLabels lbl with
      | some ks =>
        rw [hlku] at hold
        have hks : ks = dedupFirst ((acc.cits.filter
            (fun c => c.label == lbl)).map (fun c => c.key)) := by simpa using hold
        rw [hll] at hlku
        rw [hlku]
        show (if ks.contains key then ks else ks ++ [key]) = _
        rw [hks, dedupFirst_contains key ((acc.cits.filter
          (fun c => c.label == lbl)).map (fun c => c.key))]
      | none =>
        rw [hlku] at hold
        have hmap : ((acc.cits.filter (fun c => c.label == lbl)).map
            (fun c => c.key)) = [] :=
          dedupFirst_eq_nil _ (by simpa using hold.symm)
        rw [hll] at hlku
        rw [hlku, hmap]
        rfl
    · have h1 : (lbl == label) = false := beq_eq_false_iff_ne.mpr hll
      have h2 : (label == lbl) = false :=
        beq_eq_false_iff_ne.mpr (fun h => hll h.symm)
      rw [h1, h2]
      show (lookupA acc.usedLabels lbl).getD [] = _
      rw [if_neg (by simp), List.map_nil, List.append_nil]
      exact hold
  · exact addLabelKey_nodup label key acc.usedLabels hL2
  · intro lbl ks hm
    rcases List.mem_append.mp hm with h1 | h2
    · exact hL3 lbl ks h1
    · rcases hbranch with ⟨_, _, hws⟩ | ⟨_, _, _, hws⟩ | ⟨_, _, _, hws⟩ <;> rw [hws] at h2
      · cases h2
      · exact Warning.noConfusion (List.mem_singleton.mp h2)
      · cases h2

/-- The invariant is preserved by one iteration of the inner loop. -/
theorem ccInv_entryStep (makeId : String → String) (s : DomainState) (bid : String)
    (bib : Bibliography) (hlk : lookupA s.bibliographies bid = some bib)
    (acc : CCAcc) (hinv : ccInv s acc) (le : String × Entry) :
    ccInv s (ccEntryStep makeId bid bib acc le) := by
  cases hkind : (bib.list_ == "citation") with
  | false =>
    have hstep : ccEntryStep makeId bid bib acc le =
        { usedKeys := acc.usedKeys ++ [bib.keyP ++ le.2.key],
          usedLabels := addLabelKey acc.usedLabels (bib.labelP ++ le.1)
            (bib.keyP ++ le.2.key),
          usedIds := acc.usedIds ++ [none],
          cits := acc.cits ++ [⟨none, bid, bib.keyP ++ le.2.key, bib.labelP ++ le.1,
            le.2.key, le.1⟩],
          warns := acc.warns ++ [] } := by
      unfold ccEntryStep
      rw [hkind]
      rfl
    rw [hstep]
    exact ccInv_snoc s acc hinv bid bib hlk _ _ _ _ none []
      (Or.inl ⟨hkind, rfl, rfl⟩)
  | true =>
    cases hused : acc.usedKeys.contains (bib.keyP ++ le.2.key) with
    | true =>
      have hstep : ccEntryStep makeId bid bib acc le =
          { usedKeys := acc.usedKeys ++ [bib.keyP ++ le.2.key],
            usedLabels := addLabelKey acc.usedLabels (bib.labelP ++ le.1)
              (bib.keyP ++ le.2.key),
            usedIds := acc.usedIds ++ [none],
            cits := acc.cits ++ [⟨none, bid, bib.keyP ++ le.2.key, bib.labelP ++ le.1,
              le.2.key, le.1⟩],
            warns := acc.warns ++ [Warning.duplicateCitation (bib.keyP ++ le.2.key)
              bib.docname bib.line] } := by
        unfold ccEntryStep
        simp only [hkind, hused]
        rfl
      rw [hstep]
      exact ccInv_snoc s acc hinv bid bib hlk _ _ _ _ none _
        (Or.inr (Or.inl ⟨hkind, hused, rfl, rfl⟩))
    | false =>
      cases hbase : acc.usedIds.contains
          (some (makeId ("bibtex-citation-" ++ (bib.keyP ++ le.2.key)))) with
      | false =>
        have hstep : ccEntryStep makeId bid bib acc le =
            { usedKeys := acc.usedKeys ++ [bib.keyP ++ le.2.key],
              usedLabels := addLabelKey acc.usedLabels (bib.labelP ++ le.1)
                (bib.keyP ++ le.2.key),
              usedIds := acc.usedIds ++
                [some (makeId ("bibtex-citation-" ++ (bib.keyP ++ le.2.key)))],
              cits := acc.cits ++ [⟨some (makeId ("bibtex-citation-" ++
                (bib.keyP ++ le.2.key))), bid, bib.keyP ++ le.2.key,
                bib.labelP ++ le.1, le.2.key, le.1⟩],
              warns := acc.warns ++ [] } := by
          unfold ccEntryStep
          simp only [hkind, hused, hbase]
          rfl
        rw [hstep]
        exact ccInv_snoc s acc hinv bid bib hlk _ _ _ _ _ []
          (Or.inr (Or.inr ⟨hkind, hused, rfl, rfl⟩))
      | true =>
        have hstep : ccEntryStep makeId bid bib acc le =
            { usedKeys := acc.usedKeys ++ [bib.keyP ++ le.2.key],
              usedLabels := addLabelKey acc.usedLabels (bib.labelP ++ le.1)
                (bib.keyP ++ le.2.key),
              usedIds := acc.usedIds ++
                [some (makeId ("bibtex-citation-" ++ (bib.keyP ++ le.2.key)) ++
                  toString (findSuffixNum acc.usedIds
                    (makeId ("bibtex-citation-" ++ (bib.keyP ++ le.2.key)))
                    (acc.usedIds.length + 1) 1))],
              cits := acc.cits ++ [⟨some (makeId ("bibtex-citation-" ++
                (bib.keyP ++ le.2.key)) ++ toString (findSuffixNum acc.usedIds
                  (makeId ("bibtex-citation-" ++ (bib.keyP ++ le.2.key)))
                  (acc.usedIds.length + 1) 1)), bid, bib.keyP ++ le.2.key,
                bib.labelP ++ le.1, le.2.key, le.1⟩],
              warns := acc.warns ++ [] } := by
          unfold ccEntryStep
          simp only [hkind, hused, hbase]
          rfl
        rw [hstep]
        exact ccInv_snoc s acc hinv bid bib hlk _ _ _ _ _ []
          (Or.inr (Or.inr ⟨hkind, hused, rfl, rfl⟩))

theorem ccInv_foldl (makeId : String → String) (s : DomainState) (bid : String)
    (bib : Bibliography) (hlk : lookupA s.bibliographies bid = some bib) :
    ∀ (les : List (String × Entry)) (acc : CCAcc), ccInv s acc →
      ccInv s (les.foldl (ccEntryStep makeId bid bib) acc) := by
  intro les
  induction les with
  | nil => intro acc h; exact h
  | cons le les ih =>
    intro acc h
    exact ih _ (ccInv_entryStep makeId s bid bib hlk acc h le)

/-- The invariant is unaffected by logging extra warnings, as long as none
of them is a label collision warning. -/
theorem ccInv_warnsExt (s : DomainState) (acc : CCAcc) (ws : List Warning)
    (hws : ∀ lbl ks, Warning.duplicateLabel lbl ks ∉ ws)
    (h : ccInv s acc) : ccInv s { acc with warns := acc.warns ++ ws } := by
  obtain ⟨hK1, hK2, hP, hL1, hL2, hL3⟩ := h
  refine ⟨hK1, hK2, ?_, hL1, hL2, ?_⟩
  · intro l1 c l2 heq
    obtain ⟨p1, p2, p3, p4⟩ := hP l1 c l2 heq
    refine ⟨p1, p2, fun hk hd => ?_, p4⟩
    obtain ⟨hn, bib2, hb2, hm2⟩ := p3 hk hd
    exact ⟨hn, bib2, hb2, List.mem_append_left ws hm2⟩
  · intro lbl ks hm
    rcases List.mem_append.mp hm with h1 | h2
    · exact hL3 lbl ks h1
    · exact hws lbl ks h2

/-- The selection loop only logs filter warnings, never label collisions. -/
theorem goFiltered_no_dupLabel (ext : ExternalEnv) (s : DomainState) (bib : Bibliography) :
    ∀ (entries : List (String × Entry)) (pr : List (String × Entry) × List Warning),
      goFiltered ext s bib entries = .ok pr →
      ∀ lbl ks, Warning.duplicateLabel lbl ks ∉ pr.2 := by
  intro entries
  induction entries with
  | nil =>
    intro pr h lbl ks
    have : pr = ([], []) := (Except.ok.inj h).symm
    rw [this]
    intro hm
    cases hm
  | cons p rest ih =>
    intro pr h lbl ks hm
    obtain ⟨k0, e⟩ := p
    cases hfe : entryFilterResult ext s bib e with
    | ok v =>
      rw [show goFiltered ext s bib ((k0, e) :: rest) =
        (do
          let r ← goFiltered ext s bib rest
          Except.ok (if truthy v then ((bib.keyP ++ e.key, e) :: r.1, r.2) else r))
        from by simp only [goFiltered, hfe]] at h
      cases hrest : goFiltered ext s bib rest with
      | error e2 => rw [hrest] at h; exact Except.noConfusion h
      | ok r =>
        rw [hrest] at h
        replace h : Except.ok (ε := PyErr)
            (if truthy v then ((bib.keyP ++ e.key, e) :: r.1, r.2) else r) = .ok pr := h
        have hpr := (Except.ok.inj h).symm
        have hpr2 : pr.2 = r.2 := by
          rw [hpr]
          cases truthy v <;> rfl
        rw [hpr2] at hm
        exact ih r hrest lbl ks hm
    | error err =>
      cases err with
      | valueError m =>
        rw [show goFiltered ext s bib ((k0, e) :: rest) =
          (do
            let r ← goFiltered ext s bib rest
            Except.ok
              (if !(cited_docnames_of s.citationRefs (bib.keyP ++ e.key)).isEmpty then
                (bib.keyP ++ e.key, e) :: r.1 else r.1,
                Warning.filterWarning m bib.docname bib.line :: r.2))
          from by simp only [goFiltered, hfe]] at h
        cases hrest : goFiltered ext s bib rest with
        | error e2 => rw [hrest] at h; exact Except.noConfusion h
        | ok r =>
          rw [hrest] at h
          replace h : Except.ok (ε := PyErr)
              (if !(cited_docnames_of s.citationRefs (bib.keyP ++ e.key)).isEmpty then
                (bib.keyP ++ e.key, e) :: r.1 else r.1,
                Warning.filterWarning m bib.docname bib.line :: r.2) = .ok pr := h
          have hpr := (Except.ok.inj h).symm
          have hpr2 : pr.2 = Warning.filterWarning m bib.docname bib.line :: r.2 := by
            rw [hpr]
          rw [hpr2] at hm
          rcases List.mem_cons.mp hm with hhd | htl
          · exact Warning.noConfusion hhd
          · exact ih r hrest lbl ks htl
      | typeError m =>
        rw [show goFiltered ext s bib ((k0, e) :: rest) = .error (.typeError m)
          from by simp only [goFiltered, hfe]] at h
        exact Except.noConfusion h
      | indexError m =>
        rw [show goFiltered ext s bib ((k0, e) :: rest) = .error (.indexError m)
          from by simp only [goFiltered, hfe]] at h
        exact Except.noConfusion h
      | pluginNotFound n =>
        rw [show goFiltered ext s bib ((k0, e) :: rest) = .error (.pluginNotFound n)
          from by simp only [goFiltered, hfe]] at h
        exact Except.noConfusion h
      | extensionError m =>
        rw [show goFiltered ext s bib ((k0, e) :: rest) = .error (.extensionError m)
          from by simp only [goFiltered, hfe]] at h
        exact Except.noConfusion h

theorem get_labelled_no_dupLabel (ext : ExternalEnv) (s : DomainState) (bib : Bibliography)
    (pr : List (String × Entry) × List Warning)
    (h : get_labelled_bibliography_entries ext s bib = .ok pr) :
    ∀ lbl ks, Warning.duplicateLabel lbl ks ∉ pr.2 := by
  unfold get_labelled_bibliography_entries at h
  cases hs : get_sorted_bibliography_entries ext s bib with
  | error e => rw [hs] at h; exact Except.noConfusion h
  | ok sr =>
    rw [hs] at h
    unfold get_sorted_bibliography_entries at hs
    cases hf : get_filtered_bibliography_entries ext s bib with
    | error e => rw [hf] at hs; exact Except.noConfusion hs
    | ok fr =>
      rw [hf] at hs
      replace hs : Except.ok (ε := PyErr)
          ((popLoop (get_all_cited_keys ext.docnames s.citationRefs) (pyDict fr.1)).1 ++
            (popLoop (get_all_cited_keys ext.docnames s.citationRefs) (pyDict fr.1)).2,
            fr.2) = .ok sr := hs
      have hsr2 : sr.2 = fr.2 := by rw [← Except.ok.inj hs]
      cases hp : find_plugin ext.plugins bib.style with
      | error e =>
        rw [hp] at h
        exact absurd h (by
          intro hcontra
          exact Except.noConfusion hcontra)
      | ok style =>
        rw [hp] at h
        replace h : Except.ok (ε := PyErr)
            ((style.formatLabels (style.sortE ((pyDict sr.1).map (fun p => p.2)))).zip
              (style.sortE ((pyDict sr.1).map (fun p => p.2))), sr.2) = .ok pr := h
        have hpr2 : pr.2 = sr.2 := by rw [← Except.ok.inj h]
        rw [hpr2, hsr2]
        exact goFiltered_no_dupLabel ext s bib (get_bibliography_entries s bib) fr hf

theorem ccInv_ccBib (ext : ExternalEnv) (s : DomainState) (acc : CCAcc)
    (p : String × Bibliography) (hlk : lookupA s.bibliographies p.1 = some p.2)
    (hinv : ccInv s acc) (acc1 : CCAcc) (h : ccBib ext s acc p = .ok acc1) :
    ccInv s acc1 := by
  unfold ccBib at h
  cases hle : get_labelled_bibliography_entries ext s p.2 with
  | error e => rw [hle] at h; exact Except.noConfusion h
  | ok le =>
    rw [hle] at h
    replace h : Except.ok (ε := PyErr)
        (le.1.foldl (ccEntryStep ext.makeId p.1 p.2)
          { acc with warns := acc.warns ++ le.2 }) = .ok acc1 := h
    rw [← Except.ok.inj h]
    exact ccInv_foldl ext.makeId s p.1 p.2 hlk le.1 _
      (ccInv_warnsExt s acc le.2
        (fun lbl ks => get_labelled_no_dupLabel ext s p.2 le hle lbl ks) hinv)

theorem ccInv_ccFold (ext : ExternalEnv) (s : DomainState) :
    ∀ (bl : List (String × Bibliography)),
      (∀ p ∈ bl, lookupA s.bibliographies p.1 = some p.2) →
      ∀ (acc : CCAcc), ccInv s acc →
      ∀ (acc1 : CCAcc), ccFold ext s bl acc = .ok acc1 → ccInv s acc1 := by
  intro bl
  induction bl with
  | nil =>
    intro _ acc hinv acc1 h
    rw [← Except.ok.inj h]
    exact hinv
  | cons p rest ih =>
    intro hmem acc hinv acc1 h
    rw [show ccFold ext s (p :: rest) acc =
      (do
        let a1 ← ccBib ext s acc p
        ccFold ext s rest a1) from rfl] at h
    cases hb : ccBib ext s acc p with
    | error e => rw [hb] at h; exact Except.noConfusion h
    | ok a1 =>
      rw [hb] at h
      exact ih (fun q hq => hmem q (List.mem_cons_of_mem p hq)) a1
        (ccInv_ccBib ext s acc p (hmem p (List.mem_cons_self p rest)) hinv a1 hb)
        acc1 h

/-- The master decomposition of check_consistency: on success, the new
citations are appended as a batch to the existing citations, the warning
list is the accumulated warnings followed by the label collision
warnings, and the accumulator satisfies the fold invariant. -/
theorem check_consistency_master (ext : ExternalEnv) (s : DomainState)
    (hnd : (s.bibliographies.map Prod.fst).Nodup)
    (s1 : DomainState) (w : List Warning)
    (h : check_consistency ext s = .ok (s1, w)) :
    ∃ acc : CCAcc, s1.citations = s.citations ++ acc.cits ∧
      w = acc.warns ++ labelWarnings acc.usedLabels ∧ ccInv s acc := by
  unfold check_consistency at h
  cases hf : ccFold ext s s.bibliographies ⟨[], [], [], [], []⟩ with
  | error e => rw [hf] at h; exact Except.noConfusion h
  | ok acc =>
    rw [hf] at h
    replace h : Except.ok (ε := PyErr)
        ({ s with citations := s.citations ++ acc.cits },
          acc.warns ++ labelWarnings acc.usedLabels) = .ok (s1, w) := h
    have hp := Except.ok.inj h
    refine ⟨acc, ?_, ?_, ?_⟩
    · rw [show s1 = _ from (congrArg Prod.fst hp).symm]
    · exact (congrArg Prod.snd hp).symm
    · exact ccInv_ccFold ext s s.bibliographies
        (fun p hp2 => nodup_lookupA_mem s.bibliographies hnd p.1 p.2 hp2)
        ⟨[], [], [], [], []⟩ (ccInv_init s) acc hf

theorem filter_eq_nil_of_all_false {α : Type} (p : α → Bool) :
    ∀ l : List α, (∀ y ∈ l, p y = false) → l.filter p = [] := by
  intro l
  induction l with
  | nil => intro _; rfl
  | cons a rest ih =>
    intro h
    have ha := h a (List.mem_cons_self a rest)
    have hstep : (a :: rest).filter p = rest.filter p := by
      simp [List.filter_cons, ha]
    rw [hstep]
    exact ih (fun y hy => h y (List.mem_cons_of_mem a hy))

/-- A list in which no element satisfying p is ever followed by another
element satisfying p has at most one element satisfying p. -/
theorem filter_length_le_one {α : Type} (p : α → Bool) :
    ∀ l : List α,
      (∀ u x v, l = u ++ x :: v → p x = true → ∀ y ∈ v, p y = false) →
      (l.filter p).length ≤ 1 := by
  intro l
  induction l with
  | nil => intro _; exact Nat.zero_le 1
  | cons a rest ih =>
    intro h
    cases hpa : p a with
    | false =>
      have hstep : (a :: rest).filter p = rest.filter p := by
        simp [List.filter_cons, hpa]
      rw [hstep]
      exact ih (fun u x v huv hx y hy =>
        h (a :: u) x v (by rw [huv]; rfl) hx y hy)
    | true =>
      have hall : ∀ y ∈ rest, p y = false := h [] a rest rfl hpa
      have hnil : rest.filter p = [] := filter_eq_nil_of_all_false p rest hall
      have hstep : (a :: rest).filter p = [a] := by
        simp [List.filter_cons, hpa, hnil]
      rw [hstep]
      exact Nat.le_refl 1

/-- batchKeyProp bounds the non-none citation ids per full key: the first
bullet (any earlier citation with the same key forces none) makes a second
id-carrying occurrence of a key impossible. -/
theorem batchKeyProp_count (s : DomainState) (w : List Warning) (batch : List Citation)
    (hp : batchKeyProp s w batch) (k : String) :
    (batch.filter (fun c => c.key == k && c.citation_id.isSome)).length ≤ 1 := by
  apply filter_length_le_one
  intro u x v huv hx y hy
  rw [Bool.and_eq_true] at hx
  obtain ⟨hxk, hxs⟩ := hx
  obtain ⟨v1, v2, hv⟩ := List.append_of_mem hy
  have hbatch : batch = (u ++ x :: v1) ++ y :: v2 := by
    rw [huv, hv]
    simp
  obtain ⟨p1, _, _, _⟩ := hp (u ++ x :: v1) y v2 hbatch
  cases hyk : (y.key == k) with
  | false => exact rfl
  | true =>
    have hxy : x.key = y.key := (beq_iff_eq.mp hxk).trans (beq_iff_eq.mp hyk).symm
    have hynone : y.citation_id = none :=
      p1 ⟨x, List.mem_append_right u (List.mem_cons_self x v1), hxy⟩
    simp [hynone]

/-- C1, in the corrected form: among the appended citations, at most one
citation per full key carries a non-none citation_id; a citation-kind
citation preceded by any earlier citation of the batch with the same full
key (of whatever list kind) gets citation_id = none together with a
duplicate citation warning at its own listing, and a citation-kind
citation whose full key is new across the whole batch so far gets a
non-none id. -/
theorem c1_id_uniqueness (ext : ExternalEnv) (s : DomainState)
    (hnd : (s.bibliographies.map Prod.fst).Nodup)
    (s1 : DomainState) (w : List Warning)
    (h : check_consistency ext s = .ok (s1, w)) :
    ∃ batch : List Citation, s1.citations = s.citations ++ batch ∧
      (∀ k, (batch.filter (fun c => c.key == k && c.citation_id.isSome)).length ≤ 1) ∧
      (∀ l1 c l2, batch = l1 ++ c :: l2 → citKind s c = true →
        (∃ a ∈ l1, a.key = c.key) →
        c.citation_id = none ∧
        ∃ bib, lookupA s.bibliographies c.bibliography_id = some bib ∧
          Warning.duplicateCitation c.key bib.docname bib.line ∈ w) ∧
      (∀ l1 c l2, batch = l1 ++ c :: l2 → citKind s c = true →
        (∀ a ∈ l1, a.key ≠ c.key) → c.citation_id.isSome = true) := by
  obtain ⟨acc, hc, hw, hinv⟩ := check_consistency_master ext s hnd s1 w h
  obtain ⟨_, _, hP, _, _, _⟩ := hinv
  refine ⟨acc.cits, hc, fun k => batchKeyProp_count s acc.warns acc.cits hP k, ?_, ?_⟩
  · intro l1 c l2 heq hkind hdup
    obtain ⟨_, _, p3, _⟩ := hP l1 c l2 heq
    obtain ⟨hn, bib, hb, hm⟩ := p3 hkind hdup
    exact ⟨hn, bib, hb, by rw [hw]; exact List.mem_append_left _ hm⟩
  · intro l1 c l2 heq hkind hnew
    obtain ⟨_, _, _, p4⟩ := hP l1 c l2 heq
    exact p4 hkind hnew

theorem c1_id_uniqueness_witness :
    (sTwoCit.bibliographies.map Prod.fst).Nodup ∧
    ∃ s1 w, check_consistency extFix sTwoCit = .ok (s1, w) ∧
      ∃ batch : List Citation, s1.citations = sTwoCit.citations ++ batch ∧
        (∀ k, (batch.filter
          (fun c => c.key == k && c.citation_id.isSome)).length ≤ 1) ∧
        (∀ l1 c l2, batch = l1 ++ c :: l2 → citKind sTwoCit c = true →
          (∃ a ∈ l1, a.key = c.key) →
          c.citation_id = none ∧
          ∃ bib, lookupA sTwoCit.bibliographies c.bibliography_id = some bib ∧
            Warning.duplicateCitation c.key bib.docname bib.line ∈ w) ∧
        (∀ l1 c l2, batch = l1 ++ c :: l2 → citKind sTwoCit c = true →
          (∀ a ∈ l1, a.key ≠ c.key) → c.citation_id.isSome = true) :=
  ⟨by decide, _, _, rfl, c1_id_uniqueness extFix sTwoCit (by decide) _ _ rfl⟩

/-- C1, counterexample to the claimed form: in the registry sEnumCit the
enumerated listing b1 precedes the citation listing b2 over the same bib
file.  The b2 citation for key q is the only citation-kind citation with
that full key, hence its first occurrence among citation-kind citations,
yet check_consistency assigns it citation_id = none and logs a duplicate
citation warning, because the enumerated listing already consumed the
key. -/
theorem c1_counterexample :
    (check_consistency extFix sEnumCit).map (fun p => (p.1.citations, p.2)) =
      .ok ([⟨none, "b1", "q", "q", "q", "q"⟩, ⟨none, "b2", "q", "q", "q", "q"⟩],
        [.duplicateCitation "q" "doc1" 5]) ∧
    citKind sEnumCit ⟨none, "b2", "q", "q", "q", "q"⟩ = true ∧
    citKind sEnumCit ⟨none, "b1", "q", "q", "q", "q"⟩ = false :=
  ⟨rfl, rfl, rfl⟩

/-- C10: the consistency pass marks every appended citation key as used
regardless of the list kind of its listing: whenever the appended batch
decomposes around a citation-kind citation c that is preceded by a
citation a of a non-citation listing with the same full key, c still
receives citation_id = none and a duplicate citation warning located at
its own listing. -/
theorem c10_cross_kind_duplicate (ext : ExternalEnv) (s : DomainState)
    (hnd : (s.bibliographies.map Prod.fst).Nodup)
    (s1 : DomainState) (w : List Warning)
    (h : check_consistency ext s = .ok (s1, w)) :
    ∃ batch : List Citation, s1.citations = s.citations ++ batch ∧
      ∀ l1 c l2, batch = l1 ++ c :: l2 → citKind s c = true →
        ∀ a ∈ l1, citKind s a = false → a.key = c.key →
          c.citation_id = none ∧
          ∃ bib, lookupA s.bibliographies c.bibliography_id = some bib ∧
            Warning.duplicateCitation c.key bib.docname bib.line ∈ w := by
  obtain ⟨acc, hc, hw, hinv⟩ := check_consistency_master ext s hnd s1 w h
  obtain ⟨_, _, hP, _, _, _⟩ := hinv
  refine ⟨acc.cits, hc, ?_⟩
  intro l1 c l2 heq hkind a ha _ hak
  obtain ⟨_, _, p3, _⟩ := hP l1 c l2 heq
  obtain ⟨hn, bib, hb, hm⟩ := p3 hkind ⟨a, ha, hak⟩
  exact ⟨hn, bib, hb, by rw [hw]; exact List.mem_append_left _ hm⟩

theorem c10_cross_kind_duplicate_witness :
    (sEnumCit.bibliographies.map Prod.fst).Nodup ∧
    ∃ s1 w, check_consistency extFix sEnumCit = .ok (s1, w) ∧
      ∃ batch : List Citation, s1.citations = sEnumCit.citations ++ batch ∧
        ∀ l1 c l2, batch = l1 ++ c :: l2 → citKind sEnumCit c = true →
          ∀ a ∈ l1, citKind sEnumCit a = false → a.key = c.key →
            c.citation_id = none ∧
            ∃ bib, lookupA sEnumCit.bibliographies c.bibliography_id = some bib ∧
              Warning.duplicateCitation c.key bib.docname bib.line ∈ w :=
  ⟨by decide, _, _, rfl, c10_cross_kind_duplicate extFix sEnumCit (by decide) _ _ rfl⟩

theorem labelWarnings_filter_nil (lbl : String) (ul : List (String × List String))
    (h : ∀ p ∈ ul, (p.1 == lbl) = false) :
    (labelWarnings ul).filter (isLabelWarnFor lbl) = [] := by
  apply filter_eq_nil_of_all_false
  intro y hy
  unfold labelWarnings at hy
  obtain ⟨p, hp, hpy⟩ := List.mem_map.mp hy
  rw [← hpy]
  exact h p (List.mem_of_mem_filter hp)

/-- The final label scan emits, for any given label, exactly one warning
when the label stores more than one key, and none otherwise. -/
theorem labelWarnings_count (lbl : String) :
    ∀ ul : List (String × List String), (ul.map Prod.fst).Nodup →
      ((labelWarnings ul).filter (isLabelWarnFor lbl)).length =
        if 1 < (labelKeysOf ul lbl).length then 1 else 0 := by
  intro ul
  induction ul with
  | nil => intro _; rfl
  | cons p ps ih =>
    intro hnd
    rw [List.map_cons] at hnd
    obtain ⟨hnotm, htl⟩ := List.nodup_cons.mp hnd
    cases hpl : (p.1 == lbl) with
    | true =>
      have hq : ∀ q ∈ ps, (q.1 == lbl) = false := by
        intro q hqm
        cases hq1 : (q.1 == lbl) with
        | false => rfl
        | true =>
          exact absurd (by
            rw [beq_iff_eq.mp hpl, ← beq_iff_eq.mp hq1]
            exact List.mem_map.mpr ⟨q, hqm, rfl⟩) hnotm
      have hrest : (labelWarnings ps).filter (isLabelWarnFor lbl) = [] :=
        labelWarnings_filter_nil lbl ps hq
      have hkeys : labelKeysOf (p :: ps) lbl = p.2 := by
        unfold labelKeysOf lookupA
        rw [hpl]
        rfl
      rw [hkeys]
      by_cases h12 : 1 < p.2.length
      · rw [if_pos h12]
        have hlw : labelWarnings (p :: ps) =
            Warning.duplicateLabel p.1 (sortStrs p.2) :: labelWarnings ps := by
          unfold labelWarnings
          rw [List.filter_cons_of_pos (by simpa using h12), List.map_cons]
        rw [hlw, List.filter_cons_of_pos
          (show isLabelWarnFor lbl (Warning.duplicateLabel p.1 (sortStrs p.2)) = true
            from hpl), List.length_cons, hrest]
        rfl
      · rw [if_neg h12]
        have hlw : labelWarnings (p :: ps) = labelWarnings ps := by
          unfold labelWarnings
          rw [List.filter_cons_of_neg (by simpa using h12)]
        rw [hlw, hrest]
        rfl
    | false =>
      have hkeys : labelKeysOf (p :: ps) lbl = labelKeysOf ps lbl := by
        have hlu : lookupA (p :: ps) lbl = lookupA ps lbl := by
          show (if (p.1 == lbl) = true then some p.2 else lookupA ps lbl) =
            lookupA ps lbl
          rw [hpl]
          rfl
        unfold labelKeysOf
        rw [hlu]
      rw [hkeys]
      by_cases h12 : 1 < p.2.length
      · have hlw : labelWarnings (p :: ps) =
            Warning.duplicateLabel p.1 (sortStrs p.2) :: labelWarnings ps := by
          unfold labelWarnings
          rw [List.filter_cons_of_pos (by simpa using h12), List.map_cons]
        rw [hlw, List.filter_cons_of_neg
          (show ¬isLabelWarnFor lbl (Warning.duplicateLabel p.1 (sortStrs p.2)) = true
            from by rw [show isLabelWarnFor lbl (Warning.duplicateLabel p.1
              (sortStrs p.2)) = (p.1 == lbl) from rfl, hpl]; exact Bool.false_ne_true)]
        exact ih htl
      · have hlw : labelWarnings (p :: ps) = labelWarnings ps := by
          unfold labelWarnings
          rw [List.filter_cons_of_neg (by simpa using h12)]
        rw [hlw]
        exact ih htl

/-- C8: every label mapped to two or more distinct full keys triggers
exactly one consolidated collision warning regardless of how many
citations share that label, a label mapped to at most one distinct full
key triggers none, and the condition is non-fatal: the citations of the
batch are still produced and appended. -/
theorem c8_label_collision_warnings (ext : ExternalEnv) (s : DomainState)
    (hnd : (s.bibliographies.map Prod.fst).Nodup)
    (s1 : DomainState) (w : List Warning)
    (h : check_consistency ext s = .ok (s1, w)) :
    ∃ batch : List Citation, s1.citations = s.citations ++ batch ∧
      ∀ lbl, (w.filter (isLabelWarnFor lbl)).length =
        if 1 < (dedupFirst ((batch.filter (fun c => c.label == lbl)).map
            (fun c => c.key))).length then 1 else 0 := by
  obtain ⟨acc, hc, hw, hinv⟩ := check_consistency_master ext s hnd s1 w h
  obtain ⟨_, _, _, hL1, hL2, hL3⟩ := hinv
  refine ⟨acc.cits, hc, ?_⟩
  intro lbl
  rw [hw, List.filter_append, List.length_append]
  have h1 : acc.warns.filter (isLabelWarnFor lbl) = [] := by
    apply filter_eq_nil_of_all_false
    intro y hy
    cases y with
    | duplicateCitation k d l => rfl
    | duplicateLabel l ks => exact absurd hy (hL3 l ks)
    | filterWarning m d l => rfl
    | keyNotFound k => rfl
  rw [h1, List.length_nil, Nat.zero_add, labelWarnings_count lbl acc.usedLabels hL2,
    hL1 lbl]

theorem c8_label_collision_warnings_witness :
    (sColl.bibliographies.map Prod.fst).Nodup ∧
    ∃ s1 w, check_consistency extFix sColl = .ok (s1, w) ∧
      ∃ batch : List Citation, s1.citations = sColl.citations ++ batch ∧
        ∀ lbl, (w.filter (isLabelWarnFor lbl)).length =
          if 1 < (dedupFirst ((batch.filter (fun c => c.label == lbl)).map
              (fun c => c.key))).length then 1 else 0 :=
  ⟨by decide, _, _, rfl, c8_label_collision_warnings extFix sColl (by decide) _ _ rfl⟩

end BibtexDomain
